import Mathlib

/-!
# Selective-repeat sender and receiver of `5. cna/sr/sr.c`

A shallow embedding of the protocol handlers of `sr.c` together with the
properties that were checked against it.

Conventions of the embedding.

* A C `int` is an `Int`.  The only place where the source can leave the range
  of a 32-bit `int` is the additive checksum, which is therefore computed with
  an explicit two's-complement wrap (`wrapInt`) after every addition.
* The static arrays `buffer[WINDOWSIZE]` and `timer[SEQSPACE]` are lists of a
  fixed length (`CArray`).  A read outside the array (the source reads
  `buffer[index]` with `index == -1` when a sequence number is not found)
  yields a packet `oob` that the caller of the handler supplies: the theorems
  quantify over it, so they hold whatever the memory next to the array holds.
  A write outside the array is dropped.
* The calls into the emulator (`tolayer3`, `tolayer5`, `starttimer`,
  `stoptimer`) are recorded, in call order, as a list of `Action`s returned by
  each handler next to the new sender state.
-/

namespace SR

/-! ## Constants -/

/-- Round trip time `RTT` (15.0 time units in the source). -/
def RTT : Nat := 15

/-- Maximum number of buffered unacked packets. -/
def WINDOWSIZE : Int := 6

/-- Size of the sequence number space. -/
def SEQSPACE : Int := 12

/-- Filler for header fields that are not being used. -/
def NOTINUSE : Int := -1

/-! ## Packets and messages -/

/-- A C `char`, given by its value after conversion to `int`.  The range covers
both a signed (`-128..127`) and an unsigned (`0..255`) `char`. -/
structure CChar where
  val : Int
  lo : -128 ≤ val
  hi : val ≤ 255
  deriving DecidableEq

/-- Modelled from the spec: the fixed-size payload block of `emulator.h`
(`char payload[20]`, `char data[20]`): exactly twenty chars. -/
structure Payload where
  bytes : List CChar
  size : bytes.length = 20
  deriving DecidableEq

/-- Read `payload[i]`. -/
def Payload.get (pl : Payload) (i : Fin 20) : CChar :=
  pl.bytes.get ⟨i.val, by rw [pl.size]; exact i.isLt⟩

/-- Overwrite `payload[i]` with `b`. -/
def Payload.set (pl : Payload) (i : Fin 20) (b : CChar) : Payload :=
  ⟨pl.bytes.set i.val b, by rw [List.length_set]; exact pl.size⟩

/-- A payload of twenty equal chars. -/
def constPayload (c : CChar) : Payload := ⟨List.replicate 20 c, by simp⟩

/-- Modelled from the spec: `struct pkt` of `emulator.h`: sequence number,
acknowledgment number, checksum and payload. -/
structure pkt where
  seqnum : Int
  acknum : Int
  checksum : Int
  payload : Payload
  deriving DecidableEq

/-- Modelled from the spec: `struct msg` of `emulator.h`, the payload block
handed down by the application. -/
structure msg where
  data : Payload
  deriving DecidableEq

/-! ## Checksum -/

/-- Two's-complement wrap of a mathematical integer into the 32-bit `int`
range. -/
def wrapInt (x : Int) : Int := (x + 2147483648) % 4294967296 - 2147483648

/-- `ComputeChecksum`: `checksum = seqnum; checksum += acknum;` then
`checksum += (int)payload[i]` for `i = 0..19`, in `int` arithmetic. -/
def ComputeChecksum (packet : pkt) : Int :=
  let checksum := packet.seqnum
  let checksum := wrapInt (checksum + packet.acknum)
  packet.payload.bytes.foldl (fun c b => wrapInt (c + b.val)) checksum

/-- `IsCorrupted`: `false` when the stored checksum equals the recomputed one,
`true` otherwise. -/
def IsCorrupted (packet : pkt) : Bool :=
  if packet.checksum = ComputeChecksum packet then false else true

/-- The mathematical sum of the int values of the payload chars. -/
def payloadSum (pl : Payload) : Int := (pl.bytes.map CChar.val).sum


/-! ## Arrays, emulator calls, sender state -/

/-- A C array of `n` packets. -/
structure CArray (n : Nat) where
  cells : List pkt
  size : cells.length = n
  deriving DecidableEq

/-- Read `a[i]`; outside the array the read yields `oob`. -/
def CArray.rd {n : Nat} (a : CArray n) (oob : pkt) (i : Int) : pkt :=
  if 0 ≤ i then a.cells.getD i.toNat oob else oob

/-- Write `a[i] = v`; a write outside the array is dropped. -/
def CArray.wr {n : Nat} (a : CArray n) (i : Int) (v : pkt) : CArray n :=
  if 0 ≤ i then ⟨a.cells.set i.toNat v, by rw [List.length_set]; exact a.size⟩ else a

/-- The values taken by `i` in `for (i = lo; i < hi; i++)`. -/
def intRange (lo hi : Int) : List Int :=
  (List.range (hi - lo).toNat).map (fun (k : Nat) => lo + (k : Int))

/-- Modelled from the spec: the two sides `A` and `B` of `emulator.h`. -/
inductive Side where
  | A
  | B
  deriving DecidableEq

/-- Modelled from the spec: the calls a handler makes into the emulator
(`transmit`, `deliver`, `armTimer`, `disarmTimer`), recorded in call order. -/
inductive Action where
  | tolayer3 (AorB : Side) (packet : pkt)
  | tolayer5 (AorB : Side) (datasent : Payload)
  | starttimer (AorB : Side) (increment : Nat)
  | stoptimer (AorB : Side)
  deriving DecidableEq

/-- The sender's static variables, with the statistics counters of the
emulator that the sender's handlers increment. -/
structure SenderState where
  buffer : CArray 6
  windowlast : Int
  windowcount : Int
  A_nextseqnum : Int
  timer : CArray 12
  timercount : Int
  window_full : Int
  total_ACKs_received : Int
  new_ACKs : Int
  packets_resent : Int
  deriving DecidableEq

/-! ## Sender helpers -/

/-- `BuffIndexPacket`: first `i < windowcount` with `buffer[i].seqnum == num`,
or `-1`. -/
def BuffIndexPacket (s : SenderState) (oob : pkt) (num : Int) : Int :=
  match (intRange 0 s.windowcount).find? (fun i => num == (s.buffer.rd oob i).seqnum) with
  | some i => i
  | none => -1

/-- `dupTimer`: `0` when some `i` with `num < i < timercount` has
`timer[i].seqnum == timer[num].seqnum`, else `-1`. -/
def dupTimer (s : SenderState) (oob : pkt) (num : Int) : Int :=
  if (intRange (num + 1) s.timercount).any
      (fun i => (s.timer.rd oob num).seqnum == (s.timer.rd oob i).seqnum) then 0 else -1

/-- `UpdateTimer`: the first loop collects in `temp` every `timer[i]` whose
sequence number indexes an unacked `buffer` entry and that has no later
duplicate; the second loop copies `temp[0..j-1]` back and `timercount = j`. -/
def UpdateTimer (s : SenderState) (oob : pkt) : SenderState :=
  let temp : List pkt := (intRange 0 s.timercount).filterMap (fun i =>
    let index := BuffIndexPacket s oob (s.timer.rd oob i).seqnum
    if (s.buffer.rd oob index).acknum = -1 ∧ dupTimer s oob i = -1 then
      some (s.timer.rd oob i)
    else none)
  let j : Int := temp.length
  let timer := (intRange 0 j).foldl (fun t i => t.wr i (temp.getD i.toNat oob)) s.timer
  { s with timer := timer, timercount := j }

/-- `SearchWindowFirst`: first `i < windowcount` with `buffer[i].acknum == -1`,
or `-1`. -/
def SearchWindowFirst (s : SenderState) (oob : pkt) : Int :=
  match (intRange 0 s.windowcount).find? (fun i => (s.buffer.rd oob i).acknum == -1) with
  | some i => i
  | none => -1

/-- `UpdateBuffer`: with `temp` a copy of the window, `buffer[j] = temp[i]` for
`i = wf .. windowcount-1` and `j = 0, 1, ..`; then `windowcount = j` and
`windowlast = j-1`. -/
def UpdateBuffer (s : SenderState) (oob : pkt) (wf : Int) : SenderState :=
  let temp := s.buffer
  let r := (intRange wf s.windowcount).foldl
    (fun (bj : CArray 6 × Int) i => (bj.1.wr bj.2 (temp.rd oob i), bj.2 + 1)) (s.buffer, 0)
  { s with buffer := r.1, windowcount := r.2, windowlast := r.2 - 1 }

/-- `TimerIndexPacket`: first `i < timercount` with `buffer[i].seqnum == num`
(the source reads `buffer` here), or `-1`. -/
def TimerIndexPacket (s : SenderState) (oob : pkt) (num : Int) : Int :=
  match (intRange 0 s.timercount).find? (fun i => num == (s.buffer.rd oob i).seqnum) with
  | some i => i
  | none => -1

/-- `addTimer`. -/
def addTimer (s : SenderState) (oob : pkt) (num : Int) : SenderState :=
  let index := BuffIndexPacket s oob num
  let intimer := TimerIndexPacket s oob num
  if (s.buffer.rd oob index).acknum = -1 ∧ intimer = -1 then
    { s with timer := s.timer.wr s.timercount (s.buffer.rd oob index),
             timercount := Int.tmod (s.timercount + 1) SEQSPACE }
  else s

/-! ## Sender handlers -/

/-- The packet `A_output` builds for `message` with sequence number `seq`. -/
def mkpkt (seq : Int) (message : msg) : pkt :=
  let sendpkt : pkt := { seqnum := seq, acknum := NOTINUSE, checksum := 0, payload := message.data }
  { sendpkt with checksum := ComputeChecksum sendpkt }

/-- `A_output`: called from layer 5 with the message to be sent. -/
def A_output (s : SenderState) (oob : pkt) (message : msg) : SenderState × List Action :=
  if s.windowcount < WINDOWSIZE then
    let sendpkt := mkpkt s.A_nextseqnum message
    let windowlast := Int.tmod (s.windowlast + 1) WINDOWSIZE
    let s1 := { s with windowlast := windowlast,
                       buffer := s.buffer.wr windowlast sendpkt,
                       windowcount := s.windowcount + 1 }
    let s2 := addTimer s1 oob s1.A_nextseqnum
    let acts := [Action.tolayer3 Side.A sendpkt] ++
      (if s2.windowcount = 1 then [Action.starttimer Side.A RTT] else [])
    ({ s2 with A_nextseqnum := Int.tmod (s2.A_nextseqnum + 1) SEQSPACE }, acts)
  else
    ({ s with window_full := s.window_full + 1 }, [])

/-- `A_input`: called from layer 3 when a packet arrives for the sender. -/
def A_input (s : SenderState) (oob : pkt) (packet : pkt) : SenderState × List Action :=
  if IsCorrupted packet = false ∧ packet.seqnum = 0 then
    let s := { s with total_ACKs_received := s.total_ACKs_received + 1 }
    let index := BuffIndexPacket s oob packet.acknum
    if s.windowcount ≠ 0 then
      if (s.buffer.rd oob index).acknum = -1 then
        let s := { s with new_ACKs := s.new_ACKs + 1 }
        let acts := [Action.tolayer5 Side.B packet.payload]
        let s := if index ≠ -1 then
            { s with buffer := s.buffer.wr index { s.buffer.rd oob index with acknum := 0 } }
          else s
        if (s.buffer.rd oob 0).acknum = -1 then (s, acts)
        else
          let windowfirst := SearchWindowFirst s oob
          let s := if windowfirst = -1 then { s with windowlast := -1, windowcount := 0 }
            else UpdateBuffer s oob windowfirst
          (s, acts ++ [Action.stoptimer Side.A] ++
            (if s.windowcount > 0 then [Action.starttimer Side.A RTT] else []))
      else (s, [])
    else (s, [])
  else (s, [])

/-- `A_timerinterrupt`: called when the sender's timer goes off. -/
def A_timerinterrupt (s : SenderState) (oob : pkt) : SenderState × List Action :=
  let s := UpdateTimer s oob
  ({ s with packets_resent := s.packets_resent + 1 },
    [Action.tolayer3 Side.A (s.timer.rd oob 0), Action.starttimer Side.A RTT])

/-- `A_init`: called once before any other sender routine. -/
def A_init (s : SenderState) : SenderState :=
  { s with A_nextseqnum := 0, windowlast := -1, windowcount := 0, timercount := 0 }

/-! ## Receiver -/

/-- The receiver's only state: the emulator counter `packets_received`. -/
structure ReceiverState where
  packets_received : Int
  deriving DecidableEq

/-- The char `'0'`. -/
def zeroChar : CChar := ⟨48, by decide, by decide⟩

/-- `B_input`: called from layer 3 when a packet arrives for the receiver. -/
def B_input (r : ReceiverState) (packet : pkt) : ReceiverState × List Action :=
  let accept : Bool := IsCorrupted packet = false ∧ packet.acknum = -1
  let r := if accept then { r with packets_received := r.packets_received + 1 } else r
  let seqnum : Int := if accept then 0 else 1
  let sendpkt : pkt := { seqnum := seqnum, acknum := packet.seqnum, checksum := 0,
                         payload := constPayload zeroChar }
  let sendpkt := { sendpkt with checksum := ComputeChecksum sendpkt }
  (r, [Action.tolayer3 Side.B sendpkt])

/-! ## Event sequences -/

/-- One call of a sender handler by the emulator, with the packet `oob` that a
read outside `buffer` or `timer` yields during that call. -/
inductive Event where
  | output (oob : pkt) (message : msg)
  | input (oob : pkt) (packet : pkt)
  | timerinterrupt (oob : pkt)
  deriving DecidableEq

/-- Run the handler of one event. -/
def step (s : SenderState) : Event → SenderState × List Action
  | Event.output oob m => A_output s oob m
  | Event.input oob p => A_input s oob p
  | Event.timerinterrupt oob => A_timerinterrupt s oob

/-- Run the handlers of a sequence of events, oldest first. -/
def run (s : SenderState) : List Event → SenderState
  | [] => s
  | e :: es => run (step s e).1 es

/-- The emulator calls made while running a sequence of events, in order. -/
def trace (s : SenderState) : List Event → List Action
  | [] => []
  | e :: es => (step s e).2 ++ trace (step s e).1 es

/-- The live window: `buffer[0 .. windowcount-1]`. -/
def window (s : SenderState) : List pkt := s.buffer.cells.take s.windowcount.toNat

/-- The live timer list: `timer[0 .. timercount-1]`. -/
def timerList (s : SenderState) : List pkt := s.timer.cells.take s.timercount.toNat

/-- The sender states reachable from `A_init` by calls of the three
handlers. -/
inductive Reachable : SenderState → Prop where
  | init (s0 : SenderState) : Reachable (A_init s0)
  | step {s : SenderState} (e : Event) : Reachable s → Reachable (step s e).1

/-- The invariant of the reachable sender states: the window holds at most
`WINDOWSIZE` entries, `windowlast` is the index of its last entry, its entries
carry the consecutive sequence numbers that end just before `A_nextseqnum`,
its head is unacked, and the timer list holds at most `WINDOWSIZE` entries. -/
structure Inv (s : SenderState) : Prop where
  wc_nonneg : 0 ≤ s.windowcount
  wc_le : s.windowcount ≤ 6
  wl : s.windowlast = s.windowcount - 1
  ns_nonneg : 0 ≤ s.A_nextseqnum
  ns_lt : s.A_nextseqnum < 12
  seqs : ∀ (oob : pkt) (i : Int), 0 ≤ i → i < s.windowcount →
    (s.buffer.rd oob i).seqnum = (s.A_nextseqnum - s.windowcount + i) % 12
  head : 0 < s.windowcount → ∀ oob : pkt, (s.buffer.rd oob 0).acknum = -1
  tc_nonneg : 0 ≤ s.timercount
  tc_le : s.timercount ≤ 6

/-- The part of `Inv` that also holds in the middle of `A_input`, between the
marking of an entry and the removal of the acked prefix. -/
structure InvW (s : SenderState) : Prop where
  wc_nonneg : 0 ≤ s.windowcount
  wc_le : s.windowcount ≤ 6
  wl : s.windowlast = s.windowcount - 1
  ns_nonneg : 0 ≤ s.A_nextseqnum
  ns_lt : s.A_nextseqnum < 12
  seqs : ∀ (oob : pkt) (i : Int), 0 ≤ i → i < s.windowcount →
    (s.buffer.rd oob i).seqnum = (s.A_nextseqnum - s.windowcount + i) % 12
  tc_nonneg : 0 ≤ s.timercount
  tc_le : s.timercount ≤ 6

/-- The state `A_input` reaches from `s` after a new ACK has been counted and
the entry at `index` marked: nothing more when the head is unacked, else the
acked prefix is removed. -/
def compactStep (s : SenderState) (oob : pkt) : SenderState :=
  if (s.buffer.rd oob 0).acknum = -1 then s
  else if SearchWindowFirst s oob = -1 then { s with windowlast := -1, windowcount := 0 }
  else UpdateBuffer s oob (SearchWindowFirst s oob)

/-- The state `A_input` reaches from `s` once a new ACK for `acknum` has been
counted and the entry found by `BuffIndexPacket`, if any, marked acked. -/
def markStep (s : SenderState) (oob : pkt) (acknum : Int) : SenderState :=
  { s with total_ACKs_received := s.total_ACKs_received + 1,
           new_ACKs := s.new_ACKs + 1,
           buffer := if BuffIndexPacket s oob acknum ≠ -1 then
               s.buffer.wr (BuffIndexPacket s oob acknum)
                 { s.buffer.rd oob (BuffIndexPacket s oob acknum) with acknum := 0 }
             else s.buffer }

/-- The state `A_output` reaches from a state with `windowlast = windowcount - 1`
once the new packet is stored behind the window, before `addTimer`. -/
def pushStep (s : SenderState) (message : msg) : SenderState :=
  { s with windowlast := s.windowcount,
           buffer := s.buffer.wr s.windowcount (mkpkt s.A_nextseqnum message),
           windowcount := s.windowcount + 1 }

/-- Number of sends admitted while running a sequence of events: the `A_output`
calls that find `windowcount < WINDOWSIZE`. -/
def admitted (s : SenderState) : List Event → Nat
  | [] => 0
  | Event.output oob m :: es =>
    (if s.windowcount < WINDOWSIZE then 1 else 0) + admitted (A_output s oob m).1 es
  | e :: es => admitted (step s e).1 es

/-- The packets handed to `tolayer3` in a list of emulator calls. -/
def sentPackets : List Action → List pkt
  | [] => []
  | Action.tolayer3 _ p :: as => p :: sentPackets as
  | _ :: as => sentPackets as

/-- The payloads handed to `tolayer5` in a list of emulator calls. -/
def delivered : List Action → List Payload
  | [] => []
  | Action.tolayer5 _ d :: as => d :: delivered as
  | _ :: as => delivered as

/-- The packets transmitted by the `A_output` calls of a sequence of events
(the newly admitted packets, without retransmissions), in order. -/
def sentNew (s : SenderState) : List Event → List pkt
  | [] => []
  | Event.output oob m :: es =>
    sentPackets (A_output s oob m).2 ++ sentNew (A_output s oob m).1 es
  | e :: es => sentNew (step s e).1 es

/-- Modelled from the spec: the emulator's timer of side `A` (`armTimer`,
`disarmTimer`): whether it is armed after a list of emulator calls, given
whether it was armed before. -/
def timerAfter (armed : Bool) : List Action → Bool
  | [] => armed
  | Action.starttimer Side.A _ :: as => timerAfter true as
  | Action.stoptimer Side.A :: as => timerAfter false as
  | _ :: as => timerAfter armed as

/-- The sender together with the emulator's timer of side `A`. -/
structure Sys where
  sender : SenderState
  armed : Bool

/-- The states of sender and timer reachable from `A_init` with the timer
disarmed, where the timer goes off only while it is armed and is disarmed by
going off. -/
inductive SysReachable : Sys → Prop where
  | init (s0 : SenderState) : SysReachable ⟨A_init s0, false⟩
  | output {σ : Sys} (oob : pkt) (m : msg) : SysReachable σ →
      SysReachable ⟨(A_output σ.sender oob m).1, timerAfter σ.armed (A_output σ.sender oob m).2⟩
  | input {σ : Sys} (oob : pkt) (p : pkt) : SysReachable σ →
      SysReachable ⟨(A_input σ.sender oob p).1, timerAfter σ.armed (A_input σ.sender oob p).2⟩
  | timerinterrupt {σ : Sys} (oob : pkt) : SysReachable σ → σ.armed = true →
      SysReachable ⟨(A_timerinterrupt σ.sender oob).1,
        timerAfter false (A_timerinterrupt σ.sender oob).2⟩

/-- The entries that the first loop of `UpdateTimer` collects in `temp`. -/
def keptTimers (s : SenderState) (oob : pkt) : List pkt :=
  (intRange 0 s.timercount).filterMap (fun i =>
    let index := BuffIndexPacket s oob (s.timer.rd oob i).seqnum
    if (s.buffer.rd oob index).acknum = -1 ∧ dupTimer s oob i = -1 then
      some (s.timer.rd oob i)
    else none)

/-- A window entry counts as acked when its `acknum` is no longer `-1`. -/
def isAcked (q : pkt) : Bool := q.acknum != -1

/-- A window entry marked acked: `acknum = 0`. -/
def markAcked (q : pkt) : pkt := { q with acknum := 0 }

/-- Whether an event is a call of `A_output`. -/
def isOutput : Event → Bool
  | Event.output _ _ => true
  | _ => false

/-! ## Concrete inputs -/

/-- The all-zero packet of zero-initialised static storage. -/
def zeroPkt : pkt := ⟨0, 0, 0, constPayload ⟨0, by decide, by decide⟩⟩

/-- The sender's static storage before `A_init` runs: all zero. -/
def staticInit : SenderState :=
  ⟨⟨List.replicate 6 zeroPkt, by simp⟩, 0, 0, 0, ⟨List.replicate 12 zeroPkt, by simp⟩, 0, 0, 0, 0, 0⟩

/-- The message of twenty chars `'A' + k` for `k < 26`. -/
def letterMsg (k : Fin 26) : msg :=
  ⟨constPayload ⟨65 + (k.val : Int), by omega, by omega⟩⟩

/-- The uncorrupted ACK the receiver sends for an accepted packet with
sequence number `k`: `seqnum = 0`, `acknum = k`, twenty `'0'`. -/
def ackFor (k : Int) : pkt :=
  let sendpkt : pkt := { seqnum := 0, acknum := k, checksum := 0, payload := constPayload zeroChar }
  { sendpkt with checksum := ComputeChecksum sendpkt }

/-- The sender after `A_init` and the send of `letterMsg 0`. -/
def oneSent : SenderState := run (A_init staticInit) [Event.output zeroPkt (letterMsg 0)]

/-- Six sends in a row. -/
def sixSends : List Event :=
  [Event.output zeroPkt (letterMsg 0), Event.output zeroPkt (letterMsg 1),
   Event.output zeroPkt (letterMsg 2), Event.output zeroPkt (letterMsg 3),
   Event.output zeroPkt (letterMsg 4), Event.output zeroPkt (letterMsg 5)]

/-- Thirteen sends, each window of six acknowledged in order before the next
sends. -/
def thirteenSends : List Event :=
  sixSends ++
  [Event.input zeroPkt (ackFor 0), Event.input zeroPkt (ackFor 1),
   Event.input zeroPkt (ackFor 2), Event.input zeroPkt (ackFor 3),
   Event.input zeroPkt (ackFor 4), Event.input zeroPkt (ackFor 5),
   Event.output zeroPkt (letterMsg 6), Event.output zeroPkt (letterMsg 7),
   Event.output zeroPkt (letterMsg 8), Event.output zeroPkt (letterMsg 9),
   Event.output zeroPkt (letterMsg 10), Event.output zeroPkt (letterMsg 11),
   Event.input zeroPkt (ackFor 6), Event.input zeroPkt (ackFor 7),
   Event.input zeroPkt (ackFor 8), Event.input zeroPkt (ackFor 9),
   Event.input zeroPkt (ackFor 10), Event.input zeroPkt (ackFor 11),
   Event.output zeroPkt (letterMsg 12)]

/-- Two sends, the ACKs for both, then a third send. -/
def staleTimerEvents : List Event :=
  [Event.output zeroPkt (letterMsg 0), Event.output zeroPkt (letterMsg 1),
   Event.input zeroPkt (ackFor 0), Event.input zeroPkt (ackFor 1),
   Event.output zeroPkt (letterMsg 2)]

/-- Six sends, then the ACKs for all but the third (sequence number 2). -/
def lostAckEvents : List Event :=
  sixSends ++
  [Event.input zeroPkt (ackFor 0), Event.input zeroPkt (ackFor 1),
   Event.input zeroPkt (ackFor 3), Event.input zeroPkt (ackFor 4),
   Event.input zeroPkt (ackFor 5)]

/-- The packet `B_input` builds as its reply: the given `seqnum` and `acknum`,
twenty `'0'`, and the checksum computed over them. -/
def replyPkt (seqnum acknum : Int) : pkt :=
  let sendpkt : pkt := { seqnum := seqnum, acknum := acknum, checksum := 0,
                         payload := constPayload zeroChar }
  { sendpkt with checksum := ComputeChecksum sendpkt }

/-- Two sends and the ACK for the first. -/
def firstRetired : List Event :=
  [Event.output zeroPkt (letterMsg 0), Event.output zeroPkt (letterMsg 1),
   Event.input zeroPkt (ackFor 0)]

/-- Three sends and the ACK for the second. -/
def secondAcked : List Event :=
  [Event.output zeroPkt (letterMsg 0), Event.output zeroPkt (letterMsg 1),
   Event.output zeroPkt (letterMsg 2), Event.input zeroPkt (ackFor 1)]

/-- Pass a list of packets through `B_input` one by one: the receiver state at
the end and the emulator calls made, in order. -/
def runB (r : ReceiverState) : List pkt → ReceiverState × List Action
  | [] => (r, [])
  | p :: ps => ((runB (B_input r p).1 ps).1, (B_input r p).2 ++ (runB (B_input r p).1 ps).2)

/-- A send followed by its ACK. -/
def sendAndAck (k : Fin 26) : List Event :=
  [Event.output zeroPkt (letterMsg k), Event.input zeroPkt (ackFor (k.val : Int))]

/-- Twelve sends, the first eleven each acknowledged before the next. -/
def twelveSends : List Event :=
  sendAndAck 0 ++ sendAndAck 1 ++ sendAndAck 2 ++ sendAndAck 3 ++ sendAndAck 4 ++
  sendAndAck 5 ++ sendAndAck 6 ++ sendAndAck 7 ++ sendAndAck 8 ++ sendAndAck 9 ++
  sendAndAck 10 ++ [Event.output zeroPkt (letterMsg 11)]

/-- The thirteenth send behind `twelveSends`: its packet carries sequence
number 0 again. -/
def wrappedSends : List Event := twelveSends ++ [Event.output zeroPkt (letterMsg 12)]

/-- The timer list that C18 states for `UpdateTimer`, in its words: an entry of
the old list `t` is kept exactly when its sequence number belongs to an
unacked entry of the window `w` and no earlier entry of the old list (their
sequence numbers are collected in `seen`) has the same sequence number. -/
def keepFirstUnacked (w : List pkt) (seen : List Int) : List pkt → List pkt
  | [] => []
  | q :: t =>
    if w.any (fun e => e.seqnum == q.seqnum && e.acknum == -1) && !(seen.contains q.seqnum) then
      q :: keepFirstUnacked w (q.seqnum :: seen) t
    else keepFirstUnacked w (q.seqnum :: seen) t

/-- The order-preserving sublist of a timer list in which an entry survives
exactly when `keep` accepts it and no later entry has the same sequence
number. -/
def keepLast (keep : pkt → Bool) : List pkt → List pkt
  | [] => []
  | q :: t =>
    if keep q && !(t.any (fun x => x.seqnum == q.seqnum)) then q :: keepLast keep t
    else keepLast keep t

/-- Whether an event is a timer expiry. -/
def isExpiry : Event → Bool
  | Event.timerinterrupt _ => true
  | _ => false

/-- The inbound-packet events of a run without loss or corruption: every packet
transmitted while the events `es` run from `A_init s0` goes through `B_input`
in order, starting from the receiver state `r0`, and every reply of `B_input`
comes back to `A_input` in order (`oobs` gives what a read outside the arrays
would yield during each of these calls). -/
def ackEvents (s0 : SenderState) (r0 : ReceiverState) (es : List Event) (oobs : List pkt) :
    List Event :=
  List.zipWith Event.input oobs
    (sentPackets (runB r0 (sentPackets (trace (A_init s0) es))).2)

set_option maxRecDepth 100000

/-! ## Checksum lemmas -/

theorem wrapInt_add_wrapInt (x y : Int) : wrapInt (wrapInt x + y) = wrapInt (x + y) := by
  unfold wrapInt
  omega

theorem wrapInt_of_range (x : Int) (h1 : -2147483648 ≤ x) (h2 : x < 2147483648) :
    wrapInt x = x := by
  unfold wrapInt
  omega

theorem foldl_wrap (l : List CChar) (c : Int) :
    l.foldl (fun c b => wrapInt (c + b.val)) (wrapInt c)
      = wrapInt (c + (l.map CChar.val).sum) := by
  induction l generalizing c with
  | nil => simp
  | cons a t ih =>
    simp only [List.foldl_cons, List.map_cons, List.sum_cons]
    rw [wrapInt_add_wrapInt, ih]
    congr 1
    ring

theorem ComputeChecksum_eq (p : pkt) :
    ComputeChecksum p = wrapInt (p.seqnum + p.acknum + payloadSum p.payload) := by
  unfold ComputeChecksum payloadSum
  exact foldl_wrap _ _

theorem sum_map_set (l : List CChar) (i : Nat) (h : i < l.length) (b : CChar) :
    ((l.set i b).map CChar.val).sum
      = (l.map CChar.val).sum - (l.get ⟨i, h⟩).val + b.val := by
  induction l generalizing i with
  | nil => simp at h
  | cons a t ih =>
    cases i with
    | zero =>
      simp only [List.set_cons_zero, List.map_cons, List.sum_cons]
      show b.val + _ = a.val + _ - a.val + b.val
      ring
    | succ k =>
      simp only [List.length_cons, Nat.add_lt_add_iff_right] at h
      simp only [List.set_cons_succ, List.map_cons, List.sum_cons, List.get_cons_succ]
      rw [ih k h]
      ring

theorem payloadSum_set (pl : Payload) (i : Fin 20) (b : CChar) :
    payloadSum (pl.set i b) = payloadSum pl - (pl.get i).val + b.val := by
  unfold payloadSum Payload.set Payload.get
  exact sum_map_set _ _ _ _

theorem IsCorrupted_eq_false_iff (p : pkt) :
    IsCorrupted p = false ↔ p.checksum = ComputeChecksum p := by
  unfold IsCorrupted
  by_cases h : p.checksum = ComputeChecksum p <;> simp [h]

theorem IsCorrupted_eq_true_iff (p : pkt) :
    IsCorrupted p = true ↔ p.checksum ≠ ComputeChecksum p := by
  unfold IsCorrupted
  by_cases h : p.checksum = ComputeChecksum p <;> simp [h]

/-! ## Arrays and loops -/

theorem rd_of_range {n : Nat} (a : CArray n) (oob oob2 : pkt) (i : Int)
    (h0 : 0 ≤ i) (h1 : i < n) : a.rd oob i = a.rd oob2 i := by
  unfold CArray.rd
  have hlt : i.toNat < a.cells.length := by rw [a.size]; omega
  simp [h0, List.getD_eq_getElem?_getD, List.getElem?_eq_getElem hlt]

theorem rd_nat {n : Nat} (a : CArray n) (oob : pkt) (i : Nat) :
    a.rd oob (i : Int) = a.cells.getD i oob := by
  unfold CArray.rd
  simp

theorem rd_wr {n : Nat} (a : CArray n) (oob v : pkt) (i j : Int) :
    (a.wr i v).rd oob j = if i = j ∧ 0 ≤ i ∧ i < n then v else a.rd oob j := by
  unfold CArray.rd CArray.wr
  by_cases hi : 0 ≤ i
  · by_cases hj : 0 ≤ j
    · simp only [hi, hj, if_true, List.getD_eq_getElem?_getD, List.getElem?_set, true_and]
      have hs := a.size
      by_cases hij : i = j
      · subst hij
        by_cases hlt : i < n
        · have : i.toNat < a.cells.length := by omega
          simp [hlt, this]
        · have h1 : a.cells.length ≤ i.toNat := by omega
          have h2 : ¬ i.toNat < a.cells.length := by omega
          simp [hlt, List.getElem?_eq_none h1, h2]
      · have : ¬ i.toNat = j.toNat := by omega
        simp [hij, this]
    · have hij : ¬ i = j := by omega
      simp [hi, hj, hij]
  · simp [hi]

theorem wr_cells_length {n : Nat} (a : CArray n) (i : Int) (v : pkt) :
    (a.wr i v).cells.length = a.cells.length := by
  rw [(a.wr i v).size, a.size]

theorem mem_intRange (lo hi i : Int) : i ∈ intRange lo hi ↔ lo ≤ i ∧ i < hi := by
  unfold intRange
  simp only [List.mem_map, List.mem_range]
  constructor
  · rintro ⟨k, hk, rfl⟩
    omega
  · intro h
    exact ⟨(i - lo).toNat, by omega, by omega⟩

theorem intRange_zero_nat (k : Nat) :
    intRange 0 (k : Int) = (List.range k).map (fun (j : Nat) => (j : Int)) := by
  unfold intRange
  simp

theorem intRange_succ (lo : Int) (k : Nat) :
    intRange lo (lo + (k + 1 : Nat)) = intRange lo (lo + k) ++ [lo + k] := by
  unfold intRange
  have h1 : (lo + ((k + 1 : Nat) : Int) - lo).toNat = k + 1 := by omega
  have h2 : (lo + (k : Int) - lo).toNat = k := by omega
  rw [h1, h2, List.range_succ, List.map_append]
  rfl

theorem intRange_empty (lo hi : Int) (h : hi ≤ lo) : intRange lo hi = [] := by
  unfold intRange
  have : (hi - lo).toNat = 0 := by omega
  rw [this]
  rfl

/-- What a search loop `for (i = 0; i < n; i++) if (p i) return i; return -1`
finds. -/
theorem find_intRange (n : Int) (p : Int → Bool) :
    (∃ r, (intRange 0 n).find? p = some r ∧ 0 ≤ r ∧ r < n ∧ p r = true ∧
        ∀ i, 0 ≤ i → i < r → p i = false) ∨
    ((intRange 0 n).find? p = none ∧ ∀ i, 0 ≤ i → i < n → p i = false) := by
  cases h : (intRange 0 n).find? p with
  | none =>
    right
    refine ⟨rfl, ?_⟩
    intro i h0 h1
    have := List.find?_eq_none.1 h i ((mem_intRange 0 n i).2 ⟨h0, h1⟩)
    simpa using this
  | some r =>
    left
    refine ⟨r, rfl, ?_⟩
    have hm := (mem_intRange 0 n r).1 (List.mem_of_find?_eq_some h)
    have hp : p r = true := List.find?_some h
    refine ⟨hm.1, hm.2, hp, ?_⟩
    unfold intRange at h
    rw [List.find?_map] at h
    cases h2 : (List.range (n - 0).toNat).find? (p ∘ fun (k : Nat) => (0 : Int) + (k : Int)) with
    | none => rw [h2] at h; simp at h
    | some k =>
      rw [h2] at h
      have hkr : (k : Int) = r := by
        simp only [Option.map, Option.some.injEq] at h
        omega
      have h3 := List.find?_range_eq_some.1 h2
      intro i h0 h1
      have h4 := h3.2.2 i.toNat (by omega)
      have h5 : (0 : Int) + (i.toNat : Int) = i := by omega
      simp only [Function.comp, h5] at h4
      revert h4
      cases p i <;> simp

/-! ## Sender helpers: what the loops compute -/

theorem BuffIndexPacket_spec (s : SenderState) (oob : pkt) (num : Int) :
    (0 ≤ BuffIndexPacket s oob num ∧ BuffIndexPacket s oob num < s.windowcount ∧
      (s.buffer.rd oob (BuffIndexPacket s oob num)).seqnum = num ∧
      ∀ i, 0 ≤ i → i < BuffIndexPacket s oob num → (s.buffer.rd oob i).seqnum ≠ num) ∨
    (BuffIndexPacket s oob num = -1 ∧
      ∀ i, 0 ≤ i → i < s.windowcount → (s.buffer.rd oob i).seqnum ≠ num) := by
  unfold BuffIndexPacket
  rcases find_intRange s.windowcount (fun i => num == (s.buffer.rd oob i).seqnum) with
    ⟨r, hr, h0, h1, hp, hmin⟩ | ⟨hr, hall⟩
  · left
    rw [hr]
    refine ⟨h0, h1, ?_, ?_⟩
    · simp only [beq_iff_eq] at hp
      exact hp.symm
    · intro i hi0 hi1 heq
      have := hmin i hi0 hi1
      simp [heq] at this
  · right
    rw [hr]
    refine ⟨rfl, ?_⟩
    intro i hi0 hi1 heq
    have := hall i hi0 hi1
    simp [heq] at this

theorem TimerIndexPacket_spec (s : SenderState) (oob : pkt) (num : Int) :
    (0 ≤ TimerIndexPacket s oob num ∧ TimerIndexPacket s oob num < s.timercount ∧
      (s.buffer.rd oob (TimerIndexPacket s oob num)).seqnum = num ∧
      ∀ i, 0 ≤ i → i < TimerIndexPacket s oob num → (s.buffer.rd oob i).seqnum ≠ num) ∨
    (TimerIndexPacket s oob num = -1 ∧
      ∀ i, 0 ≤ i → i < s.timercount → (s.buffer.rd oob i).seqnum ≠ num) := by
  unfold TimerIndexPacket
  rcases find_intRange s.timercount (fun i => num == (s.buffer.rd oob i).seqnum) with
    ⟨r, hr, h0, h1, hp, hmin⟩ | ⟨hr, hall⟩
  · left
    rw [hr]
    refine ⟨h0, h1, ?_, ?_⟩
    · simp only [beq_iff_eq] at hp
      exact hp.symm
    · intro i hi0 hi1 heq
      have := hmin i hi0 hi1
      simp [heq] at this
  · right
    rw [hr]
    refine ⟨rfl, ?_⟩
    intro i hi0 hi1 heq
    have := hall i hi0 hi1
    simp [heq] at this

theorem SearchWindowFirst_spec (s : SenderState) (oob : pkt) :
    (0 ≤ SearchWindowFirst s oob ∧ SearchWindowFirst s oob < s.windowcount ∧
      (s.buffer.rd oob (SearchWindowFirst s oob)).acknum = -1 ∧
      ∀ i, 0 ≤ i → i < SearchWindowFirst s oob → (s.buffer.rd oob i).acknum ≠ -1) ∨
    (SearchWindowFirst s oob = -1 ∧
      ∀ i, 0 ≤ i → i < s.windowcount → (s.buffer.rd oob i).acknum ≠ -1) := by
  unfold SearchWindowFirst
  rcases find_intRange s.windowcount (fun i => (s.buffer.rd oob i).acknum == -1) with
    ⟨r, hr, h0, h1, hp, hmin⟩ | ⟨hr, hall⟩
  · left
    rw [hr]
    refine ⟨h0, h1, ?_, ?_⟩
    · simp only [beq_iff_eq] at hp
      exact hp
    · intro i hi0 hi1 heq
      have := hmin i hi0 hi1
      simp [heq] at this
  · right
    rw [hr]
    refine ⟨rfl, ?_⟩
    intro i hi0 hi1 heq
    have := hall i hi0 hi1
    simp [heq] at this

theorem UpdateBuffer_loop (temp b0 : CArray 6) (oob : pkt) (wf : Int) (k : Nat) :
    ((intRange wf (wf + k)).foldl
        (fun (bj : CArray 6 × Int) i => (bj.1.wr bj.2 (temp.rd oob i), bj.2 + 1)) (b0, 0)).2 = k ∧
    ∀ (o : pkt) (j : Int),
      ((intRange wf (wf + k)).foldl
        (fun (bj : CArray 6 × Int) i => (bj.1.wr bj.2 (temp.rd oob i), bj.2 + 1)) (b0, 0)).1.rd o j
      = if 0 ≤ j ∧ j < k ∧ j < 6 then temp.rd oob (wf + j) else b0.rd o j := by
  induction k with
  | zero =>
    have h : intRange wf (wf + ((0 : Nat) : Int)) = [] := intRange_empty _ _ (by omega)
    rw [h]
    refine ⟨rfl, ?_⟩
    intro o j
    have : ¬ (0 ≤ j ∧ j < ((0 : Nat) : Int) ∧ j < 6) := by omega
    simp only [List.foldl_nil, this, if_false]
  | succ k ih =>
    rw [intRange_succ, List.foldl_append]
    obtain ⟨ih1, ih2⟩ := ih
    simp only [List.foldl_cons, List.foldl_nil]
    rw [ih1]
    refine ⟨by push_cast; ring, ?_⟩
    intro o j
    rw [rd_wr, ih2]
    by_cases hj : (k : Int) = j
    · subst hj
      by_cases h6 : (k : Int) < 6
      · have c1 : (k : Int) = k ∧ (0 : Int) ≤ k ∧ (k : Int) < ((6 : Nat) : Int) := by omega
        have c2 : (0 : Int) ≤ k ∧ (k : Int) < ((k + 1 : Nat) : Int) ∧ (k : Int) < 6 := by omega
        rw [if_pos c1, if_pos c2]
      · have c1 : ¬ ((k : Int) = k ∧ (0 : Int) ≤ k ∧ (k : Int) < ((6 : Nat) : Int)) := by omega
        have c2 : ¬ ((0 : Int) ≤ k ∧ (k : Int) < ((k + 1 : Nat) : Int) ∧ (k : Int) < 6) := by omega
        have c3 : ¬ ((0 : Int) ≤ k ∧ (k : Int) < (k : Int) ∧ (k : Int) < 6) := by omega
        rw [if_neg c1, if_neg c2, if_neg c3]
    · have c1 : ¬ ((k : Int) = j ∧ (0 : Int) ≤ k ∧ (k : Int) < ((6 : Nat) : Int)) := by omega
      rw [if_neg c1]
      by_cases c2 : 0 ≤ j ∧ j < (k : Int) ∧ j < 6
      · have c3 : 0 ≤ j ∧ j < ((k + 1 : Nat) : Int) ∧ j < 6 := by omega
        rw [if_pos c2, if_pos c3]
      · have c3 : ¬ (0 ≤ j ∧ j < ((k + 1 : Nat) : Int) ∧ j < 6) := by omega
        rw [if_neg c2, if_neg c3]

theorem UpdateBuffer_spec (s : SenderState) (oob : pkt) (wf : Int)
    (h0 : 0 ≤ wf) (h1 : wf ≤ s.windowcount) (h2 : s.windowcount ≤ 6) :
    (UpdateBuffer s oob wf).windowcount = s.windowcount - wf ∧
    (UpdateBuffer s oob wf).windowlast = s.windowcount - wf - 1 ∧
    (∀ (o : pkt) (j : Int), (UpdateBuffer s oob wf).buffer.rd o j
      = if 0 ≤ j ∧ j < s.windowcount - wf then s.buffer.rd o (wf + j) else s.buffer.rd o j) := by
  have hk : s.windowcount = wf + ((s.windowcount - wf).toNat : Int) := by omega
  have hl := UpdateBuffer_loop s.buffer s.buffer oob wf (s.windowcount - wf).toNat
  rw [← hk] at hl
  obtain ⟨hl1, hl2⟩ := hl
  unfold UpdateBuffer
  simp only
  rw [hl1]
  refine ⟨by omega, by omega, ?_⟩
  intro o j
  rw [hl2]
  by_cases c : 0 ≤ j ∧ j < s.windowcount - wf
  · have c2 : 0 ≤ j ∧ j < ((s.windowcount - wf).toNat : Int) ∧ j < 6 := by omega
    rw [if_pos c, if_pos c2]
    exact rd_of_range _ _ _ _ (by omega) (by omega)
  · have c2 : ¬ (0 ≤ j ∧ j < ((s.windowcount - wf).toNat : Int) ∧ j < 6) := by omega
    rw [if_neg c, if_neg c2]

theorem UpdateBuffer_frame (s : SenderState) (oob : pkt) (wf : Int) :
    (UpdateBuffer s oob wf).A_nextseqnum = s.A_nextseqnum ∧
    (UpdateBuffer s oob wf).timer = s.timer ∧
    (UpdateBuffer s oob wf).timercount = s.timercount ∧
    (UpdateBuffer s oob wf).window_full = s.window_full ∧
    (UpdateBuffer s oob wf).total_ACKs_received = s.total_ACKs_received ∧
    (UpdateBuffer s oob wf).new_ACKs = s.new_ACKs ∧
    (UpdateBuffer s oob wf).packets_resent = s.packets_resent :=
  ⟨rfl, rfl, rfl, rfl, rfl, rfl, rfl⟩

theorem addTimer_frame (s : SenderState) (oob : pkt) (num : Int) :
    (addTimer s oob num).buffer = s.buffer ∧
    (addTimer s oob num).windowlast = s.windowlast ∧
    (addTimer s oob num).windowcount = s.windowcount ∧
    (addTimer s oob num).A_nextseqnum = s.A_nextseqnum ∧
    (addTimer s oob num).window_full = s.window_full ∧
    (addTimer s oob num).total_ACKs_received = s.total_ACKs_received ∧
    (addTimer s oob num).new_ACKs = s.new_ACKs ∧
    (addTimer s oob num).packets_resent = s.packets_resent := by
  unfold addTimer
  simp only
  split <;> exact ⟨rfl, rfl, rfl, rfl, rfl, rfl, rfl, rfl⟩

theorem UpdateTimer_frame (s : SenderState) (oob : pkt) :
    (UpdateTimer s oob).buffer = s.buffer ∧
    (UpdateTimer s oob).windowlast = s.windowlast ∧
    (UpdateTimer s oob).windowcount = s.windowcount ∧
    (UpdateTimer s oob).A_nextseqnum = s.A_nextseqnum ∧
    (UpdateTimer s oob).window_full = s.window_full ∧
    (UpdateTimer s oob).total_ACKs_received = s.total_ACKs_received ∧
    (UpdateTimer s oob).new_ACKs = s.new_ACKs ∧
    (UpdateTimer s oob).packets_resent = s.packets_resent :=
  ⟨rfl, rfl, rfl, rfl, rfl, rfl, rfl, rfl⟩

/-! ## The invariant -/

theorem Inv.toInvW {s : SenderState} (h : Inv s) : InvW s :=
  ⟨h.wc_nonneg, h.wc_le, h.wl, h.ns_nonneg, h.ns_lt, h.seqs, h.tc_nonneg, h.tc_le⟩

theorem tmod_succ_window (x : Int) (h0 : 0 ≤ x + 1) (h1 : x + 1 < 6) :
    Int.tmod (x + 1) WINDOWSIZE = x + 1 := by
  unfold WINDOWSIZE
  rw [Int.tmod_eq_emod (by omega) (by omega)]
  omega

theorem tmod_succ_seq (x : Int) (h0 : 0 ≤ x) : Int.tmod (x + 1) SEQSPACE = (x + 1) % 12 := by
  unfold SEQSPACE
  rw [Int.tmod_eq_emod (by omega) (by omega)]

theorem Inv_A_init (s0 : SenderState) : Inv (A_init s0) := by
  refine ⟨?_, ?_, ?_, ?_, ?_, ?_, ?_, ?_, ?_⟩ <;> simp [A_init]
  · intro _ i h0 h1
    omega

theorem compactStep_frame (s : SenderState) (oob : pkt) :
    (compactStep s oob).A_nextseqnum = s.A_nextseqnum ∧
    (compactStep s oob).timer = s.timer ∧
    (compactStep s oob).timercount = s.timercount ∧
    (compactStep s oob).window_full = s.window_full ∧
    (compactStep s oob).total_ACKs_received = s.total_ACKs_received ∧
    (compactStep s oob).new_ACKs = s.new_ACKs ∧
    (compactStep s oob).packets_resent = s.packets_resent := by
  unfold compactStep
  split
  · exact ⟨rfl, rfl, rfl, rfl, rfl, rfl, rfl⟩
  · split
    · exact ⟨rfl, rfl, rfl, rfl, rfl, rfl, rfl⟩
    · exact UpdateBuffer_frame _ _ _

theorem Inv_compactStep (s : SenderState) (oob : pkt) (h : InvW s) : Inv (compactStep s oob) := by
  obtain ⟨f1, f2, f3, f4, f5, f6, f7⟩ := compactStep_frame s oob
  unfold compactStep at *
  by_cases hh : (s.buffer.rd oob 0).acknum = -1
  · rw [if_pos hh] at *
    refine ⟨h.wc_nonneg, h.wc_le, h.wl, h.ns_nonneg, h.ns_lt, h.seqs, ?_, h.tc_nonneg, h.tc_le⟩
    intro hpos o
    rw [rd_of_range s.buffer o oob 0 (by omega) (by have := h.wc_le; omega)]
    exact hh
  · rw [if_neg hh] at *
    rcases SearchWindowFirst_spec s oob with ⟨w0, w1, w2, w3⟩ | ⟨w0, w1⟩
    · have hne : ¬ SearchWindowFirst s oob = -1 := by omega
      rw [if_neg hne] at *
      obtain ⟨u1, u2, u3⟩ := UpdateBuffer_spec s oob (SearchWindowFirst s oob) w0 (by omega) h.wc_le
      refine ⟨by omega, by have := h.wc_le; omega, by omega, by rw [f1]; exact h.ns_nonneg,
        by rw [f1]; exact h.ns_lt, ?_, ?_, by rw [f3]; exact h.tc_nonneg, by rw [f3]; exact h.tc_le⟩
      · intro o i hi0 hi1
        rw [u3, f1, u1]
        rw [u1] at hi1
        rw [if_pos ⟨hi0, hi1⟩, h.seqs o _ (by omega) (by omega)]
        congr 1
        ring
      · intro hpos o
        rw [u1] at hpos
        rw [u3, if_pos ⟨by omega, by omega⟩]
        rw [rd_of_range s.buffer o oob _ (by omega) (by have := h.wc_le; omega)]
        simpa using w2
    · rw [if_pos w0] at *
      refine ⟨by simp, by simp, by simp, h.ns_nonneg, h.ns_lt, ?_, ?_, h.tc_nonneg, h.tc_le⟩
      · intro o i hi0 hi1
        simp only at hi1
        omega
      · intro hpos
        simp only at hpos
        omega

/-! ## The branches of `A_input` -/

theorem A_input_reject (s : SenderState) (oob p : pkt)
    (h : IsCorrupted p = true ∨ p.seqnum ≠ 0) : A_input s oob p = (s, []) := by
  unfold A_input
  have hc : ¬ (IsCorrupted p = false ∧ p.seqnum = 0) := by
    rintro ⟨h1, h2⟩
    rcases h with h | h
    · rw [h1] at h
      exact Bool.noConfusion h
    · exact h h2
  rw [if_neg hc]

theorem A_input_counted (s : SenderState) (oob p : pkt)
    (h1 : IsCorrupted p = false) (h2 : p.seqnum = 0)
    (h3 : s.windowcount = 0 ∨ (s.buffer.rd oob (BuffIndexPacket s oob p.acknum)).acknum ≠ -1) :
    A_input s oob p
      = ({ s with total_ACKs_received := s.total_ACKs_received + 1 }, []) := by
  unfold A_input
  rw [if_pos ⟨h1, h2⟩]
  simp only
  by_cases hw : s.windowcount = 0
  · simp [hw]
  · rcases h3 with h3 | h3
    · exact absurd h3 hw
    · have : BuffIndexPacket { s with total_ACKs_received := s.total_ACKs_received + 1 } oob p.acknum
          = BuffIndexPacket s oob p.acknum := rfl
      rw [this]
      simp [hw, h3]

theorem A_input_new (s : SenderState) (oob p : pkt)
    (h1 : IsCorrupted p = false) (h2 : p.seqnum = 0) (h3 : s.windowcount ≠ 0)
    (h4 : (s.buffer.rd oob (BuffIndexPacket s oob p.acknum)).acknum = -1) :
    A_input s oob p
      = (compactStep (markStep s oob p.acknum) oob,
          if ((markStep s oob p.acknum).buffer.rd oob 0).acknum = -1 then
            [Action.tolayer5 Side.B p.payload]
          else
            [Action.tolayer5 Side.B p.payload] ++ [Action.stoptimer Side.A] ++
              (if (compactStep (markStep s oob p.acknum) oob).windowcount > 0 then
                [Action.starttimer Side.A RTT] else [])) := by
  unfold A_input
  rw [if_pos ⟨h1, h2⟩]
  have hb : BuffIndexPacket { s with total_ACKs_received := s.total_ACKs_received + 1 } oob p.acknum
      = BuffIndexPacket s oob p.acknum := rfl
  simp only [hb, h3, ne_eq, not_false_eq_true, if_true, h4]
  by_cases hi : BuffIndexPacket s oob p.acknum = -1
  · have hm : markStep s oob p.acknum
        = { s with total_ACKs_received := s.total_ACKs_received + 1,
                   new_ACKs := s.new_ACKs + 1 } := by
      unfold markStep
      simp [hi]
    rw [hm]
    simp only [hi, not_true_eq_false, if_false]
    unfold compactStep
    split <;> rfl
  · have hm : markStep s oob p.acknum
        = { s with total_ACKs_received := s.total_ACKs_received + 1,
                   new_ACKs := s.new_ACKs + 1,
                   buffer := s.buffer.wr (BuffIndexPacket s oob p.acknum)
                     { s.buffer.rd oob (BuffIndexPacket s oob p.acknum) with acknum := 0 } } := by
      unfold markStep
      simp [hi]
    rw [hm]
    simp only [hi, not_false_eq_true, if_true]
    unfold compactStep
    split <;> rfl

/-! ## The handlers keep the invariant -/

theorem Inv_of_fields {s t : SenderState} (h : Inv s) (hb : t.buffer = s.buffer)
    (hl : t.windowlast = s.windowlast) (hc : t.windowcount = s.windowcount)
    (hn : t.A_nextseqnum = s.A_nextseqnum) (ht : t.timercount = s.timercount) : Inv t := by
  refine ⟨?_, ?_, ?_, ?_, ?_, ?_, ?_, ?_, ?_⟩
  · rw [hc]; exact h.wc_nonneg
  · rw [hc]; exact h.wc_le
  · rw [hc, hl]; exact h.wl
  · rw [hn]; exact h.ns_nonneg
  · rw [hn]; exact h.ns_lt
  · rw [hc, hn, hb]; exact h.seqs
  · rw [hc, hb]; exact h.head
  · rw [ht]; exact h.tc_nonneg
  · rw [ht]; exact h.tc_le

theorem markStep_rd (s : SenderState) (oob : pkt) (a : Int) (h : InvW s) (o : pkt) (j : Int) :
    (markStep s oob a).buffer.rd o j
      = if BuffIndexPacket s oob a = j ∧ 0 ≤ j then { s.buffer.rd o j with acknum := 0 }
        else s.buffer.rd o j := by
  unfold markStep
  simp only
  rcases BuffIndexPacket_spec s oob a with ⟨b0, b1, _, _⟩ | ⟨b0, _⟩
  · have hne : BuffIndexPacket s oob a ≠ -1 := by omega
    rw [if_pos hne, rd_wr]
    have h6 := h.wc_le
    by_cases hj : BuffIndexPacket s oob a = j
    · have c1 : BuffIndexPacket s oob a = j ∧ 0 ≤ BuffIndexPacket s oob a ∧
          BuffIndexPacket s oob a < ((6 : Nat) : Int) := ⟨hj, b0, by omega⟩
      have c2 : BuffIndexPacket s oob a = j ∧ 0 ≤ j := ⟨hj, by omega⟩
      rw [if_pos c1, if_pos c2, ← hj,
        rd_of_range s.buffer oob o (BuffIndexPacket s oob a) b0 (by omega)]
    · have c1 : ¬ (BuffIndexPacket s oob a = j ∧ 0 ≤ BuffIndexPacket s oob a ∧
          BuffIndexPacket s oob a < ((6 : Nat) : Int)) := fun c => hj c.1
      have c2 : ¬ (BuffIndexPacket s oob a = j ∧ 0 ≤ j) := fun c => hj c.1
      rw [if_neg c1, if_neg c2]
  · have hne : ¬ BuffIndexPacket s oob a ≠ -1 := by simp [b0]
    rw [if_neg hne]
    have c2 : ¬ (BuffIndexPacket s oob a = j ∧ 0 ≤ j) := by omega
    rw [if_neg c2]

theorem markStep_frame (s : SenderState) (oob : pkt) (a : Int) :
    (markStep s oob a).windowlast = s.windowlast ∧
    (markStep s oob a).windowcount = s.windowcount ∧
    (markStep s oob a).A_nextseqnum = s.A_nextseqnum ∧
    (markStep s oob a).timer = s.timer ∧
    (markStep s oob a).timercount = s.timercount ∧
    (markStep s oob a).window_full = s.window_full ∧
    (markStep s oob a).total_ACKs_received = s.total_ACKs_received + 1 ∧
    (markStep s oob a).new_ACKs = s.new_ACKs + 1 ∧
    (markStep s oob a).packets_resent = s.packets_resent :=
  ⟨rfl, rfl, rfl, rfl, rfl, rfl, rfl, rfl, rfl⟩

theorem InvW_markStep (s : SenderState) (oob : pkt) (a : Int) (h : InvW s) :
    InvW (markStep s oob a) := by
  refine ⟨h.wc_nonneg, h.wc_le, h.wl, h.ns_nonneg, h.ns_lt, ?_, h.tc_nonneg, h.tc_le⟩
  intro o i hi0 hi1
  rw [markStep_rd s oob a h]
  have := h.seqs o i hi0 hi1
  split
  · exact this
  · exact this

theorem Inv_A_input (s : SenderState) (oob p : pkt) (h : Inv s) : Inv (A_input s oob p).1 := by
  by_cases h12 : IsCorrupted p = false ∧ p.seqnum = 0
  · by_cases h34 : s.windowcount ≠ 0 ∧
        (s.buffer.rd oob (BuffIndexPacket s oob p.acknum)).acknum = -1
    · rw [A_input_new s oob p h12.1 h12.2 h34.1 h34.2]
      exact Inv_compactStep _ _ (InvW_markStep s oob _ h.toInvW)
    · rw [A_input_counted s oob p h12.1 h12.2 (by
        by_cases hw : s.windowcount = 0
        · exact Or.inl hw
        · exact Or.inr (fun hc => h34 ⟨hw, hc⟩))]
      exact Inv_of_fields h rfl rfl rfl rfl rfl
  · rw [A_input_reject s oob p (by
      by_cases hc : IsCorrupted p = true
      · exact Or.inl hc
      · refine Or.inr (fun hs => h12 ⟨?_, hs⟩)
        cases hq : IsCorrupted p
        · rfl
        · exact absurd hq hc)]
    exact h

theorem filterMap_length_le {α β : Type} (f : α → Option β) (l : List α) :
    (l.filterMap f).length ≤ l.length := by
  induction l with
  | nil => simp
  | cons a t ih =>
    rw [List.filterMap_cons]
    split
    · exact Nat.le_succ_of_le ih
    · simp only [List.length_cons]
      omega

theorem intRange_length (lo hi : Int) : (intRange lo hi).length = (hi - lo).toNat := by
  unfold intRange
  simp

theorem UpdateTimer_timercount (s : SenderState) (oob : pkt) :
    0 ≤ (UpdateTimer s oob).timercount ∧
    (UpdateTimer s oob).timercount ≤ (s.timercount.toNat : Int) := by
  unfold UpdateTimer
  simp only
  have h := filterMap_length_le (fun i =>
    if (s.buffer.rd oob (BuffIndexPacket s oob (s.timer.rd oob i).seqnum)).acknum = -1 ∧
        dupTimer s oob i = -1 then some (s.timer.rd oob i) else none) (intRange 0 s.timercount)
  rw [intRange_length] at h
  constructor
  · omega
  · have : (s.timercount - 0).toNat = s.timercount.toNat := by simp
    omega

theorem Inv_A_timerinterrupt (s : SenderState) (oob : pkt) (h : Inv s) :
    Inv (A_timerinterrupt s oob).1 := by
  unfold A_timerinterrupt
  simp only
  obtain ⟨t0, t1⟩ := UpdateTimer_timercount s oob
  have h0 := h.tc_nonneg
  have h1 := h.tc_le
  refine ⟨h.wc_nonneg, h.wc_le, h.wl, h.ns_nonneg, h.ns_lt, h.seqs, h.head, t0, ?_⟩
  show (UpdateTimer s oob).timercount ≤ 6
  omega

/-! ## The branches of `A_output` -/

theorem A_output_full (s : SenderState) (oob : pkt) (m : msg) (h : ¬ s.windowcount < WINDOWSIZE) :
    A_output s oob m = ({ s with window_full := s.window_full + 1 }, []) := by
  unfold A_output
  rw [if_neg h]

theorem A_output_open (s : SenderState) (oob : pkt) (m : msg) (h : Inv s)
    (hw : s.windowcount < WINDOWSIZE) :
    A_output s oob m
      = ({ addTimer (pushStep s m) oob s.A_nextseqnum with
            A_nextseqnum := (s.A_nextseqnum + 1) % 12 },
         [Action.tolayer3 Side.A (mkpkt s.A_nextseqnum m)] ++
           (if s.windowcount + 1 = 1 then [Action.starttimer Side.A RTT] else [])) := by
  unfold A_output
  rw [if_pos hw]
  have hw6 : s.windowcount < 6 := hw
  have hl : Int.tmod (s.windowlast + 1) WINDOWSIZE = s.windowcount := by
    rw [h.wl]
    have := tmod_succ_window (s.windowcount - 1) (by have := h.wc_nonneg; omega) (by omega)
    rw [this]
    ring
  simp only [hl]
  have hp : ({ s with windowlast := s.windowcount,
                      buffer := s.buffer.wr s.windowcount (mkpkt s.A_nextseqnum m),
                      windowcount := s.windowcount + 1 } : SenderState) = pushStep s m := rfl
  rw [hp]
  obtain ⟨_, _, a3, a4, _⟩ := addTimer_frame (pushStep s m) oob s.A_nextseqnum
  have hn : (pushStep s m).A_nextseqnum = s.A_nextseqnum := rfl
  have hc : (pushStep s m).windowcount = s.windowcount + 1 := rfl
  simp only [a3, a4, hn, hc, tmod_succ_seq _ h.ns_nonneg]

theorem addTimer_pushStep_timercount (s : SenderState) (oob : pkt) (m : msg) (h : Inv s)
    (hw : s.windowcount < 6) :
    0 ≤ (addTimer (pushStep s m) oob s.A_nextseqnum).timercount ∧
    (addTimer (pushStep s m) oob s.A_nextseqnum).timercount ≤ 6 := by
  unfold addTimer
  simp only
  split
  · rename_i hc
    have h0 := h.tc_nonneg
    have h1 := h.tc_le
    have h2 := h.wc_nonneg
    have htc : (pushStep s m).timercount = s.timercount := rfl
    rcases TimerIndexPacket_spec (pushStep s m) oob s.A_nextseqnum with ⟨t0, _⟩ | ⟨_, t1⟩
    · omega
    · have hlt : s.timercount ≤ s.windowcount := by
        by_contra hcon
        have := t1 s.windowcount h2 (by rw [htc]; omega)
        apply this
        show ((s.buffer.wr s.windowcount (mkpkt s.A_nextseqnum m)).rd oob s.windowcount).seqnum
          = s.A_nextseqnum
        rw [rd_wr, if_pos ⟨rfl, h2, by omega⟩]
        rfl
      show 0 ≤ Int.tmod (s.timercount + 1) SEQSPACE ∧ Int.tmod (s.timercount + 1) SEQSPACE ≤ 6
      rw [tmod_succ_seq _ h0]
      omega
  · exact ⟨h.tc_nonneg, h.tc_le⟩

theorem Inv_A_output (s : SenderState) (oob : pkt) (m : msg) (h : Inv s) :
    Inv (A_output s oob m).1 := by
  by_cases hw : s.windowcount < WINDOWSIZE
  · rw [A_output_open s oob m h hw]
    have hw6 : s.windowcount < 6 := hw
    obtain ⟨a1, a2, a3, a4, _⟩ := addTimer_frame (pushStep s m) oob s.A_nextseqnum
    obtain ⟨t0, t1⟩ := addTimer_pushStep_timercount s oob m h hw6
    have h0 := h.wc_nonneg
    have n0 := h.ns_nonneg
    have n1 := h.ns_lt
    refine ⟨?_, ?_, ?_, ?_, ?_, ?_, ?_, t0, t1⟩
    · show 0 ≤ (addTimer (pushStep s m) oob s.A_nextseqnum).windowcount
      rw [a3]
      show 0 ≤ s.windowcount + 1
      omega
    · show (addTimer (pushStep s m) oob s.A_nextseqnum).windowcount ≤ 6
      rw [a3]
      show s.windowcount + 1 ≤ 6
      omega
    · show (addTimer (pushStep s m) oob s.A_nextseqnum).windowlast
        = (addTimer (pushStep s m) oob s.A_nextseqnum).windowcount - 1
      rw [a2, a3]
      show s.windowcount = s.windowcount + 1 - 1
      omega
    · show 0 ≤ (s.A_nextseqnum + 1) % 12
      omega
    · show (s.A_nextseqnum + 1) % 12 < 12
      omega
    · intro o i hi0 hi1
      show ((addTimer (pushStep s m) oob s.A_nextseqnum).buffer.rd o i).seqnum
        = ((s.A_nextseqnum + 1) % 12
            - (addTimer (pushStep s m) oob s.A_nextseqnum).windowcount + i) % 12
      have hi1' : i < (addTimer (pushStep s m) oob s.A_nextseqnum).windowcount := hi1
      rw [a3] at hi1' ⊢
      rw [a1]
      have hc : (pushStep s m).windowcount = s.windowcount + 1 := rfl
      rw [hc] at hi1' ⊢
      show ((s.buffer.wr s.windowcount (mkpkt s.A_nextseqnum m)).rd o i).seqnum = _
      rw [rd_wr]
      by_cases hi : s.windowcount = i
      · rw [if_pos ⟨hi, h0, by omega⟩]
        show s.A_nextseqnum = _
        omega
      · rw [if_neg (fun c => hi c.1), h.seqs o i hi0 (by omega)]
        omega
    · intro _ o
      show ((addTimer (pushStep s m) oob s.A_nextseqnum).buffer.rd o 0).acknum = -1
      rw [a1]
      show ((s.buffer.wr s.windowcount (mkpkt s.A_nextseqnum m)).rd o 0).acknum = -1
      rw [rd_wr]
      by_cases hi : s.windowcount = 0
      · rw [if_pos ⟨hi, h0, by omega⟩]
        rfl
      · rw [if_neg (fun c => hi c.1)]
        exact h.head (by omega) o
  · rw [A_output_full s oob m hw]
    exact Inv_of_fields h rfl rfl rfl rfl rfl

theorem Inv_step (s : SenderState) (e : Event) (h : Inv s) : Inv (step s e).1 := by
  cases e with
  | output oob m => exact Inv_A_output s oob m h
  | input oob p => exact Inv_A_input s oob p h
  | timerinterrupt oob => exact Inv_A_timerinterrupt s oob h

theorem Inv_of_Reachable {s : SenderState} (h : Reachable s) : Inv s := by
  induction h with
  | init s0 => exact Inv_A_init s0
  | step e _ ih => exact Inv_step _ e ih

theorem Inv_run (s : SenderState) (es : List Event) (h : Inv s) : Inv (run s es) := by
  induction es generalizing s with
  | nil => exact h
  | cons e t ih => exact ih _ (Inv_step s e h)

theorem Reachable_run (s : SenderState) (es : List Event) (h : Reachable s) :
    Reachable (run s es) := by
  induction es generalizing s with
  | nil => exact h
  | cons e t ih => exact ih _ (Reachable.step e h)

/-! ## The window as a list -/

theorem take_set_succ {α : Type} (l : List α) (k : Nat) (v : α) (h : k < l.length) :
    (l.set k v).take (k + 1) = l.take k ++ [v] := by
  induction l generalizing k with
  | nil => simp at h
  | cons a t ih =>
    cases k with
    | zero => simp
    | succ k =>
      simp only [List.length_cons, Nat.add_lt_add_iff_right] at h
      simp only [List.set_cons_succ, List.take_succ_cons, List.cons_append, ih k h]

theorem window_length (s : SenderState) (h0 : 0 ≤ s.windowcount) (h1 : s.windowcount ≤ 6) :
    ((window s).length : Int) = s.windowcount := by
  unfold window
  rw [List.length_take, s.buffer.size]
  omega

theorem window_getElem? (s : SenderState) (oob : pkt) (i : Nat) (h1 : s.windowcount ≤ 6) :
    (window s)[i]? = if (i : Int) < s.windowcount then some (s.buffer.rd oob i) else none := by
  unfold window
  rw [List.getElem?_take]
  by_cases h : (i : Int) < s.windowcount
  · have hi : i < s.windowcount.toNat := by omega
    have hl : i < s.buffer.cells.length := by rw [s.buffer.size]; omega
    rw [if_pos hi, if_pos h, rd_nat, List.getD_eq_getElem?_getD, List.getElem?_eq_getElem hl]
    rfl
  · have hi : ¬ i < s.windowcount.toNat := by omega
    rw [if_neg hi, if_neg h]

theorem window_pushStep (s : SenderState) (m : msg) (h0 : 0 ≤ s.windowcount)
    (h1 : s.windowcount < 6) :
    window (pushStep s m) = window s ++ [mkpkt s.A_nextseqnum m] := by
  unfold window pushStep CArray.wr
  simp only [h0, if_true]
  have hk : (s.windowcount + 1).toNat = s.windowcount.toNat + 1 := by omega
  rw [hk]
  exact take_set_succ _ _ _ (by rw [s.buffer.size]; omega)

theorem window_congr {s t : SenderState} (hb : t.buffer = s.buffer)
    (hc : t.windowcount = s.windowcount) : window t = window s := by
  unfold window
  rw [hb, hc]

theorem mkpkt_uncorrupted (seq : Int) (m : msg) : IsCorrupted (mkpkt seq m) = false := by
  rw [IsCorrupted_eq_false_iff]
  rfl

/-! ## Frame of the handlers and counting of sends -/

theorem A_input_cases (s : SenderState) (oob p : pkt) :
    A_input s oob p = (s, []) ∨
    A_input s oob p = ({ s with total_ACKs_received := s.total_ACKs_received + 1 }, []) ∨
    (s.windowcount ≠ 0 ∧ IsCorrupted p = false ∧ p.seqnum = 0 ∧
      (s.buffer.rd oob (BuffIndexPacket s oob p.acknum)).acknum = -1 ∧
      A_input s oob p
        = (compactStep (markStep s oob p.acknum) oob,
            if ((markStep s oob p.acknum).buffer.rd oob 0).acknum = -1 then
              [Action.tolayer5 Side.B p.payload]
            else
              [Action.tolayer5 Side.B p.payload] ++ [Action.stoptimer Side.A] ++
                (if (compactStep (markStep s oob p.acknum) oob).windowcount > 0 then
                  [Action.starttimer Side.A RTT] else []))) := by
  by_cases h12 : IsCorrupted p = false ∧ p.seqnum = 0
  · by_cases h34 : s.windowcount ≠ 0 ∧
        (s.buffer.rd oob (BuffIndexPacket s oob p.acknum)).acknum = -1
    · exact Or.inr (Or.inr ⟨h34.1, h12.1, h12.2, h34.2,
        A_input_new s oob p h12.1 h12.2 h34.1 h34.2⟩)
    · refine Or.inr (Or.inl (A_input_counted s oob p h12.1 h12.2 ?_))
      by_cases hw : s.windowcount = 0
      · exact Or.inl hw
      · exact Or.inr (fun hc => h34 ⟨hw, hc⟩)
  · refine Or.inl (A_input_reject s oob p ?_)
    by_cases hc : IsCorrupted p = true
    · exact Or.inl hc
    · refine Or.inr (fun hs => h12 ⟨?_, hs⟩)
      cases hq : IsCorrupted p
      · rfl
      · exact absurd hq hc

theorem A_input_nextseq (s : SenderState) (oob p : pkt) :
    (A_input s oob p).1.A_nextseqnum = s.A_nextseqnum := by
  rcases A_input_cases s oob p with h | h | ⟨_, _, _, _, h⟩
  · rw [h]
  · rw [h]
  · rw [h]
    exact (compactStep_frame _ _).1

theorem A_timerinterrupt_nextseq (s : SenderState) (oob : pkt) :
    (A_timerinterrupt s oob).1.A_nextseqnum = s.A_nextseqnum := rfl

theorem A_output_full_nextseq (s : SenderState) (oob : pkt) (m : msg)
    (h : ¬ s.windowcount < WINDOWSIZE) :
    (A_output s oob m).1.A_nextseqnum = s.A_nextseqnum := by
  rw [A_output_full s oob m h]

theorem A_output_open_sent (s : SenderState) (oob : pkt) (m : msg) (h : Inv s)
    (hw : s.windowcount < WINDOWSIZE) :
    sentPackets (A_output s oob m).2 = [mkpkt s.A_nextseqnum m] := by
  rw [A_output_open s oob m h hw]
  by_cases c : s.windowcount + 1 = 1
  · rw [if_pos c]; rfl
  · rw [if_neg c]; rfl

theorem A_output_open_windowcount (s : SenderState) (oob : pkt) (m : msg) (h : Inv s)
    (hw : s.windowcount < WINDOWSIZE) :
    (A_output s oob m).1.windowcount = s.windowcount + 1 := by
  rw [A_output_open s oob m h hw]
  exact (addTimer_frame (pushStep s m) oob s.A_nextseqnum).2.2.1

theorem run_outputs (s : SenderState) (es : List Event) (h : Inv s)
    (ho : ∀ e ∈ es, isOutput e = true) (hl : s.windowcount + es.length ≤ 6) :
    (run s es).windowcount = s.windowcount + es.length ∧ admitted s es = es.length := by
  induction es generalizing s with
  | nil => simp [run, admitted]
  | cons e t ih =>
    cases e with
    | output oob m =>
      have hw : s.windowcount < WINDOWSIZE := by
        show s.windowcount < 6
        simp only [List.length_cons] at hl
        push_cast at hl
        omega
      have hc := A_output_open_windowcount s oob m h hw
      obtain ⟨i1, i2⟩ := ih (A_output s oob m).1 (Inv_A_output s oob m h)
        (fun e he => ho e (List.mem_cons_of_mem _ he))
        (by rw [hc]; simp only [List.length_cons] at hl; push_cast at hl; omega)
      constructor
      · show (run (A_output s oob m).1 t).windowcount = _
        rw [i1, hc]
        simp only [List.length_cons]
        push_cast
        ring
      · simp only [admitted, if_pos hw, i2, List.length_cons]
        omega
    | input oob q =>
      have := ho (Event.input oob q) (List.mem_cons_self _ _)
      simp [isOutput] at this
    | timerinterrupt oob =>
      have := ho (Event.timerinterrupt oob) (List.mem_cons_self _ _)
      simp [isOutput] at this

theorem run_counts (s : SenderState) (es : List Event) (h : Inv s) :
    (run s es).A_nextseqnum = (s.A_nextseqnum + (admitted s es : Int)) % 12 ∧
    (sentNew s es).length = admitted s es ∧
    ∀ (n : Nat) (q : pkt), (sentNew s es)[n]? = some q →
      q.seqnum = (s.A_nextseqnum + (n : Int)) % 12 := by
  induction es generalizing s with
  | nil =>
    have h0 := h.ns_nonneg
    have h1 := h.ns_lt
    refine ⟨?_, rfl, ?_⟩
    · show s.A_nextseqnum = (s.A_nextseqnum + ((0 : Nat) : Int)) % 12
      omega
    · intro n q hq
      simp [sentNew] at hq
  | cons e t ih =>
    have h0 := h.ns_nonneg
    have h1 := h.ns_lt
    cases e with
    | output oob m =>
      obtain ⟨i1, i2, i3⟩ := ih (A_output s oob m).1 (Inv_A_output s oob m h)
      by_cases hw : s.windowcount < WINDOWSIZE
      · have hs := A_output_open_sent s oob m h hw
        have hn : (A_output s oob m).1.A_nextseqnum = (s.A_nextseqnum + 1) % 12 := by
          rw [A_output_open s oob m h hw]
        have ha : admitted s (Event.output oob m :: t)
            = 1 + admitted (A_output s oob m).1 t := by
          simp only [admitted, if_pos hw]
        have hsn : sentNew s (Event.output oob m :: t)
            = mkpkt s.A_nextseqnum m :: sentNew (A_output s oob m).1 t := by
          simp only [sentNew, hs, List.singleton_append]
        refine ⟨?_, ?_, ?_⟩
        · show (run (A_output s oob m).1 t).A_nextseqnum = _
          rw [i1, hn, ha]
          push_cast
          omega
        · rw [hsn, ha, List.length_cons, i2]
          omega
        · intro n q hq
          rw [hsn] at hq
          cases n with
          | zero =>
            simp only [List.getElem?_cons_zero, Option.some.injEq] at hq
            subst hq
            show s.A_nextseqnum = _
            push_cast
            omega
          | succ k =>
            simp only [List.getElem?_cons_succ] at hq
            rw [i3 k q hq, hn]
            push_cast
            omega
      · have hf := A_output_full s oob m hw
        have hn : (A_output s oob m).1.A_nextseqnum = s.A_nextseqnum := by rw [hf]
        have hs : sentPackets (A_output s oob m).2 = [] := by rw [hf]; rfl
        have ha : admitted s (Event.output oob m :: t) = admitted (A_output s oob m).1 t := by
          simp only [admitted, if_neg hw, Nat.zero_add]
        have hsn : sentNew s (Event.output oob m :: t) = sentNew (A_output s oob m).1 t := by
          simp only [sentNew, hs, List.nil_append]
        rw [ha, hsn]
        rw [hn] at i1 i3
        exact ⟨i1, i2, i3⟩
    | input oob q =>
      obtain ⟨i1, i2, i3⟩ := ih (A_input s oob q).1 (Inv_A_input s oob q h)
      rw [A_input_nextseq] at i1 i3
      exact ⟨i1, i2, i3⟩
    | timerinterrupt oob =>
      obtain ⟨i1, i2, i3⟩ := ih (A_timerinterrupt s oob).1 (Inv_A_timerinterrupt s oob h)
      rw [A_timerinterrupt_nextseq] at i1 i3
      exact ⟨i1, i2, i3⟩

/-! ## Marking and removing the acked prefix, on the window list -/

theorem dropWhile_of_first {α : Type} (p : α → Bool) (l : List α) (k : Nat)
    (hk : k ≤ l.length) (h1 : ∀ (i : Nat) (x : α), i < k → l[i]? = some x → p x = true)
    (h2 : ∀ x : α, l[k]? = some x → p x = false) :
    l.dropWhile p = l.drop k ∧ (l.takeWhile p).length = k := by
  induction l generalizing k with
  | nil =>
    have : k = 0 := by simpa using hk
    subst this
    simp
  | cons a t ih =>
    cases k with
    | zero =>
      have hp : p a = false := h2 a (by simp)
      simp [List.dropWhile_cons, List.takeWhile_cons, hp]
    | succ k =>
      have hp : p a = true := h1 0 a (by omega) (by simp)
      have hk2 : k ≤ t.length := by simpa using hk
      obtain ⟨i1, i2⟩ := ih k hk2
        (fun i x hi hx => h1 (i + 1) x (by omega) (by simpa using hx))
        (fun x hx => h2 x (by simpa using hx))
      simp [List.dropWhile_cons, List.takeWhile_cons, hp, i1, i2]

theorem BuffIndexPacket_of_entry (s : SenderState) (oob : pkt) (num : Int) (h : Inv s)
    (i : Int) (h0 : 0 ≤ i) (h1 : i < s.windowcount) (hs : (s.buffer.rd oob i).seqnum = num) :
    BuffIndexPacket s oob num = i := by
  have hw := h.wc_le
  rcases BuffIndexPacket_spec s oob num with ⟨b0, b1, b2, b3⟩ | ⟨_, b1⟩
  · have e1 := h.seqs oob i h0 h1
    have e2 := h.seqs oob _ b0 b1
    rw [hs] at e1
    rw [b2] at e2
    omega
  · exact absurd hs (b1 i h0 h1)

theorem window_markStep (s : SenderState) (oob : pkt) (num : Int) (h : Inv s)
    (i : Nat) (e : pkt) (he : (window s)[i]? = some e) (hs : e.seqnum = num) :
    BuffIndexPacket s oob num = i ∧
    window (markStep s oob num) = (window s).set i (markAcked e) := by
  have hw := h.wc_le
  have hw0 := h.wc_nonneg
  have hi : (i : Int) < s.windowcount := by
    by_contra c
    rw [window_getElem? s oob i hw, if_neg c] at he
    exact Option.noConfusion he
  have hrd : s.buffer.rd oob i = e := by
    rw [window_getElem? s oob i hw, if_pos hi, Option.some.injEq] at he
    exact he
  have hidx : BuffIndexPacket s oob num = i :=
    BuffIndexPacket_of_entry s oob num h i (by omega) hi (by rw [hrd]; exact hs)
  refine ⟨hidx, ?_⟩
  apply List.ext_getElem?
  intro j
  have hwm : (markStep s oob num).windowcount ≤ 6 := hw
  rw [window_getElem? (markStep s oob num) oob j hwm, List.getElem?_set,
    window_getElem? s oob j hw, markStep_rd s oob num h.toInvW oob j, hidx]
  have hc : (markStep s oob num).windowcount = s.windowcount := rfl
  have hlen := window_length s hw0 hw
  rw [hc]
  by_cases hij : i = j
  · subst hij
    have c1 : ((i : Int) = (i : Int) ∧ (0 : Int) ≤ (i : Int)) := ⟨rfl, by omega⟩
    have c2 : i < (window s).length := by omega
    rw [if_pos hi, if_pos c1, if_pos rfl, if_pos c2, hrd]
    rfl
  · have c1 : ¬ ((i : Int) = (j : Int) ∧ (0 : Int) ≤ (j : Int)) := by omega
    rw [if_neg c1, if_neg hij]

theorem window_UpdateBuffer (s : SenderState) (oob : pkt) (wf : Int)
    (h0 : 0 ≤ wf) (h1 : wf ≤ s.windowcount) (h2 : s.windowcount ≤ 6) :
    window (UpdateBuffer s oob wf) = (window s).drop wf.toNat := by
  obtain ⟨u1, _, u3⟩ := UpdateBuffer_spec s oob wf h0 h1 h2
  apply List.ext_getElem?
  intro j
  rw [window_getElem? (UpdateBuffer s oob wf) oob j (by rw [u1]; omega), List.getElem?_drop,
    window_getElem? s oob (wf.toNat + j) h2, u1, u3]
  by_cases c : (j : Int) < s.windowcount - wf
  · have c2 : ((wf.toNat + j : Nat) : Int) < s.windowcount := by omega
    have c3 : (0 : Int) ≤ (j : Int) ∧ (j : Int) < s.windowcount - wf := ⟨by omega, c⟩
    have c4 : wf + (j : Int) = ((wf.toNat + j : Nat) : Int) := by omega
    rw [if_pos c, if_pos c2, if_pos c3, c4]
  · have c2 : ¬ ((wf.toNat + j : Nat) : Int) < s.windowcount := by omega
    rw [if_neg c, if_neg c2]

theorem window_compactStep (s : SenderState) (oob : pkt) (h : InvW s) :
    window (compactStep s oob) = (window s).dropWhile isAcked ∧
    (compactStep s oob).windowcount
      = s.windowcount - (((window s).takeWhile isAcked).length : Int) := by
  have hw := h.wc_le
  have hw0 := h.wc_nonneg
  have hlen := window_length s hw0 hw
  have key : ∀ k : Nat, (k : Int) ≤ s.windowcount →
      (∀ i : Int, 0 ≤ i → i < k → (s.buffer.rd oob i).acknum ≠ -1) →
      ((k : Int) < s.windowcount → (s.buffer.rd oob k).acknum = -1) →
      (window s).dropWhile isAcked = (window s).drop k ∧
      ((window s).takeWhile isAcked).length = k := by
    intro k hk a1 a2
    apply dropWhile_of_first isAcked (window s) k (by omega)
    · intro i x hi hx
      have c : (i : Int) < s.windowcount := by omega
      rw [window_getElem? s oob i hw, if_pos c, Option.some.injEq] at hx
      have := a1 i (by omega) (by omega)
      rw [hx] at this
      simp [isAcked, this]
    · intro x hx
      by_cases c : (k : Int) < s.windowcount
      · rw [window_getElem? s oob k hw, if_pos c, Option.some.injEq] at hx
        have := a2 c
        rw [hx] at this
        simp [isAcked, this]
      · rw [window_getElem? s oob k hw, if_neg c] at hx
        exact Option.noConfusion hx
  unfold compactStep
  by_cases hh : (s.buffer.rd oob 0).acknum = -1
  · rw [if_pos hh]
    obtain ⟨k1, k2⟩ := key 0 (by omega) (fun i i0 i1 => by omega) (fun _ => hh)
    rw [k1, k2]
    exact ⟨rfl, by simp⟩
  · rw [if_neg hh]
    rcases SearchWindowFirst_spec s oob with ⟨w0, w1, w2, w3⟩ | ⟨w0, w1⟩
    · have hne : ¬ SearchWindowFirst s oob = -1 := by omega
      rw [if_neg hne]
      obtain ⟨k1, k2⟩ := key (SearchWindowFirst s oob).toNat (by omega)
        (fun i i0 i1 => w3 i i0 (by omega))
        (fun _ => by
          have : (((SearchWindowFirst s oob).toNat : Nat) : Int) = SearchWindowFirst s oob := by
            omega
          rw [this]
          exact w2)
      obtain ⟨u1, _, _⟩ := UpdateBuffer_spec s oob (SearchWindowFirst s oob) w0 (by omega) hw
      rw [k1, k2, window_UpdateBuffer s oob _ w0 (by omega) hw, u1]
      exact ⟨rfl, by omega⟩
    · rw [if_pos w0]
      obtain ⟨k1, k2⟩ := key s.windowcount.toNat (by omega)
        (fun i i0 i1 => w1 i i0 (by omega)) (fun c => by omega)
      rw [k1, k2]
      constructor
      · show List.take (0 : Int).toNat s.buffer.cells = _
        rw [List.drop_of_length_le (by omega)]
        rfl
      · show (0 : Int) = _
        omega

theorem A_input_new_ack_window (s : SenderState) (oob p : pkt) (i : Nat) (e : pkt)
    (hr : Reachable s) (h1 : IsCorrupted p = false) (h2 : p.seqnum = 0)
    (he : (window s)[i]? = some e) (hs : e.seqnum = p.acknum) (hu : e.acknum = -1) :
    window (A_input s oob p).1 = ((window s).set i (markAcked e)).dropWhile isAcked ∧
    (A_input s oob p).1.windowcount
      = s.windowcount - ((((window s).set i (markAcked e)).takeWhile isAcked).length : Int) ∧
    (A_input s oob p).2
      = (if ((window s).set i (markAcked e)).takeWhile isAcked = [] then
          [Action.tolayer5 Side.B p.payload]
        else
          [Action.tolayer5 Side.B p.payload] ++ [Action.stoptimer Side.A] ++
            (if (A_input s oob p).1.windowcount > 0 then
              [Action.starttimer Side.A RTT] else [])) := by
  have h := Inv_of_Reachable hr
  have hw := h.wc_le
  have hi : (i : Int) < s.windowcount := by
    by_contra c
    rw [window_getElem? s oob i hw, if_neg c] at he
    exact Option.noConfusion he
  have hrd : s.buffer.rd oob i = e := by
    rw [window_getElem? s oob i hw, if_pos hi, Option.some.injEq] at he
    exact he
  obtain ⟨hidx, hwin⟩ := window_markStep s oob p.acknum h i e he hs
  have h3 : s.windowcount ≠ 0 := by omega
  have h4 : (s.buffer.rd oob (BuffIndexPacket s oob p.acknum)).acknum = -1 := by
    rw [hidx, hrd]
    exact hu
  have hI := InvW_markStep s oob p.acknum h.toInvW
  obtain ⟨c1, c2⟩ := window_compactStep (markStep s oob p.acknum) oob hI
  rw [hwin] at c1 c2
  have hmc : (markStep s oob p.acknum).windowcount = s.windowcount := rfl
  rw [hmc] at c2
  rw [A_input_new s oob p h1 h2 h3 h4]
  refine ⟨c1, c2, ?_⟩
  have hhead : (window (markStep s oob p.acknum))[0]?
      = some ((markStep s oob p.acknum).buffer.rd oob 0) := by
    rw [window_getElem? (markStep s oob p.acknum) oob 0 hw, if_pos (by rw [hmc]; omega)]
    rfl
  rw [hwin] at hhead
  cases hl : (window s).set i (markAcked e) with
  | nil =>
    rw [hl] at hhead
    simp at hhead
  | cons a t =>
    rw [hl] at hhead
    simp only [List.getElem?_cons_zero, Option.some.injEq] at hhead
    rw [← hhead]
    by_cases ha : a.acknum = -1
    · have : isAcked a = false := by simp [isAcked, ha]
      rw [if_pos ha, List.takeWhile_cons, this]
      simp
    · have : isAcked a = true := by simp [isAcked, ha]
      rw [if_neg ha, List.takeWhile_cons, this]
      simp

theorem A_input_new_ack_not_head (s : SenderState) (oob p : pkt) (i : Nat) (e : pkt)
    (hr : Reachable s) (h1 : IsCorrupted p = false) (h2 : p.seqnum = 0)
    (he : (window s)[i]? = some e) (hs : e.seqnum = p.acknum) (hu : e.acknum = -1)
    (hi : i ≠ 0) :
    window (A_input s oob p).1 = (window s).set i (markAcked e) ∧
    (A_input s oob p).1.windowcount = s.windowcount := by
  obtain ⟨c1, c2, _⟩ := A_input_new_ack_window s oob p i e hr h1 h2 he hs hu
  have h := Inv_of_Reachable hr
  have hw := h.wc_le
  have hd := dropWhile_of_first isAcked ((window s).set i (markAcked e)) 0 (Nat.zero_le _)
    (fun j x hj _ => absurd hj (Nat.not_lt_zero j))
    (fun x hx => by
      rw [List.getElem?_set, if_neg hi, window_getElem? s oob 0 hw] at hx
      by_cases c : ((0 : Nat) : Int) < s.windowcount
      · rw [if_pos c, Option.some.injEq] at hx
        have := h.head (by omega) oob
        rw [← hx]
        simp only [isAcked, Nat.cast_zero, this]
        rfl
      · rw [if_neg c] at hx
        exact Option.noConfusion hx)
  rw [hd.1] at c1
  rw [hd.2] at c2
  exact ⟨by simpa using c1, by simpa using c2⟩

/-! ## The timer list after `UpdateTimer` -/

theorem UpdateTimer_loop (temp : List pkt) (t0 : CArray 12) (oob : pkt) (k : Nat) (o : pkt)
    (j : Int) :
    ((intRange 0 (k : Int)).foldl (fun t i => t.wr i (temp.getD i.toNat oob)) t0).rd o j
      = if 0 ≤ j ∧ j < k ∧ j < 12 then temp.getD j.toNat oob else t0.rd o j := by
  induction k with
  | zero =>
    have h : intRange 0 ((0 : Nat) : Int) = [] := intRange_empty _ _ (by omega)
    have c : ¬ (0 ≤ j ∧ j < ((0 : Nat) : Int) ∧ j < 12) := by omega
    rw [h, if_neg c]
    rfl
  | succ k ih =>
    have h := intRange_succ 0 k
    simp only [zero_add] at h
    rw [h, List.foldl_append]
    simp only [List.foldl_cons, List.foldl_nil]
    rw [rd_wr, ih]
    by_cases hj : (k : Int) = j
    · subst hj
      by_cases h12 : (k : Int) < 12
      · have c1 : (k : Int) = k ∧ (0 : Int) ≤ k ∧ (k : Int) < ((12 : Nat) : Int) := by omega
        have c2 : (0 : Int) ≤ k ∧ (k : Int) < ((k + 1 : Nat) : Int) ∧ (k : Int) < 12 := by omega
        rw [if_pos c1, if_pos c2]
      · have c1 : ¬ ((k : Int) = k ∧ (0 : Int) ≤ k ∧ (k : Int) < ((12 : Nat) : Int)) := by omega
        have c2 : ¬ ((0 : Int) ≤ k ∧ (k : Int) < ((k + 1 : Nat) : Int) ∧ (k : Int) < 12) := by
          omega
        have c3 : ¬ ((0 : Int) ≤ k ∧ (k : Int) < (k : Int) ∧ (k : Int) < 12) := by omega
        rw [if_neg c1, if_neg c2, if_neg c3]
    · have c1 : ¬ ((k : Int) = j ∧ (0 : Int) ≤ k ∧ (k : Int) < ((12 : Nat) : Int)) := by omega
      rw [if_neg c1]
      by_cases c2 : 0 ≤ j ∧ j < (k : Int) ∧ j < 12
      · have c3 : 0 ≤ j ∧ j < ((k + 1 : Nat) : Int) ∧ j < 12 := by omega
        rw [if_pos c2, if_pos c3]
      · have c3 : ¬ (0 ≤ j ∧ j < ((k + 1 : Nat) : Int) ∧ j < 12) := by omega
        rw [if_neg c2, if_neg c3]

theorem UpdateTimer_spec (s : SenderState) (oob : pkt) :
    (UpdateTimer s oob).timercount = ((keptTimers s oob).length : Int) ∧
    ∀ (o : pkt) (j : Int), (UpdateTimer s oob).timer.rd o j
      = if 0 ≤ j ∧ j < ((keptTimers s oob).length : Int) ∧ j < 12 then
          (keptTimers s oob).getD j.toNat oob
        else s.timer.rd o j :=
  ⟨rfl, fun o j => UpdateTimer_loop (keptTimers s oob) s.timer oob _ o j⟩

/-! ## The emulator timer -/

theorem keptTimers_stale (oob : pkt) :
    keptTimers (run (A_init staticInit) staleTimerEvents) oob
      = if oob.acknum = -1 then [mkpkt 0 (letterMsg 0), mkpkt 1 (letterMsg 1)] else [] := by
  have e1 : intRange 0 (run (A_init staticInit) staleTimerEvents).timercount = [0, 1] := by
    decide
  have b0 : BuffIndexPacket (run (A_init staticInit) staleTimerEvents) oob
      (mkpkt 0 (letterMsg 0)).seqnum = -1 := rfl
  have b1 : BuffIndexPacket (run (A_init staticInit) staleTimerEvents) oob
      (mkpkt 1 (letterMsg 1)).seqnum = -1 := rfl
  have r : (run (A_init staticInit) staleTimerEvents).buffer.rd oob (-1) = oob := rfl
  have d0 : dupTimer (run (A_init staticInit) staleTimerEvents) oob 0 = -1 := rfl
  have d1 : dupTimer (run (A_init staticInit) staleTimerEvents) oob 1 = -1 := rfl
  have t0 : (run (A_init staticInit) staleTimerEvents).timer.rd oob 0
      = mkpkt 0 (letterMsg 0) := rfl
  have t1 : (run (A_init staticInit) staleTimerEvents).timer.rd oob 1
      = mkpkt 1 (letterMsg 1) := rfl
  unfold keptTimers
  rw [e1]
  simp only [List.filterMap_cons, List.filterMap_nil, t0, t1, b0, b1, r, d0, d1, and_true]
  by_cases h : oob.acknum = -1
  · simp [h]
  · simp [h]

theorem timerAfter_open (armed : Bool) (q : pkt) (c : Prop) [Decidable c] :
    timerAfter armed ([Action.tolayer3 Side.A q] ++
        (if c then [Action.starttimer Side.A RTT] else []))
      = if c then true else armed := by
  by_cases h : c
  · rw [if_pos h, if_pos h]; rfl
  · rw [if_neg h, if_neg h]; rfl

theorem timerAfter_compact (armed : Bool) (d : Payload) (c : Prop) [Decidable c] :
    timerAfter armed ([Action.tolayer5 Side.B d] ++ [Action.stoptimer Side.A] ++
        (if c then [Action.starttimer Side.A RTT] else []))
      = decide c := by
  by_cases h : c
  · rw [if_pos h]; simp [timerAfter, h]
  · rw [if_neg h]; simp [timerAfter, h]

theorem Inv_of_SysReachable {σ : Sys} (h : SysReachable σ) : Inv σ.sender := by
  induction h with
  | init s0 => exact Inv_A_init s0
  | output oob m _ ih => exact Inv_A_output _ oob m ih
  | input oob p _ ih => exact Inv_A_input _ oob p ih
  | timerinterrupt oob _ _ ih => exact Inv_A_timerinterrupt _ oob ih

theorem armed_iff_of_SysReachable {σ : Sys} (h : SysReachable σ) :
    σ.armed = true ↔ 0 < σ.sender.windowcount := by
  induction h with
  | init s0 =>
    show false = true ↔ (0 : Int) < 0
    simp
  | @output σ oob m hσ ih =>
    have hi := Inv_of_SysReachable hσ
    have h0 := hi.wc_nonneg
    show timerAfter σ.armed (A_output σ.sender oob m).2 = true
      ↔ 0 < (A_output σ.sender oob m).1.windowcount
    by_cases hw : σ.sender.windowcount < WINDOWSIZE
    · rw [A_output_open_windowcount σ.sender oob m hi hw, A_output_open σ.sender oob m hi hw,
        timerAfter_open]
      by_cases c : σ.sender.windowcount + 1 = 1
      · rw [if_pos c]
        constructor
        · intro _; omega
        · intro _; rfl
      · rw [if_neg c, ih]
        constructor
        · intro _; omega
        · intro _; omega
    · rw [A_output_full σ.sender oob m hw]
      exact ih
  | @input σ oob p hσ ih =>
    have hi := Inv_of_SysReachable hσ
    show timerAfter σ.armed (A_input σ.sender oob p).2 = true
      ↔ 0 < (A_input σ.sender oob p).1.windowcount
    rcases A_input_cases σ.sender oob p with h | h | ⟨_, _, _, _, h⟩
    · rw [h]; exact ih
    · rw [h]; exact ih
    · rw [h]
      by_cases hh : ((markStep σ.sender oob p.acknum).buffer.rd oob 0).acknum = -1
      · have hc : compactStep (markStep σ.sender oob p.acknum) oob
            = markStep σ.sender oob p.acknum := by
          unfold compactStep
          rw [if_pos hh]
        rw [if_pos hh, hc]
        exact ih
      · rw [if_neg hh, timerAfter_compact]
        simp
  | @timerinterrupt σ oob hσ ha ih =>
    show timerAfter false (A_timerinterrupt σ.sender oob).2 = true
      ↔ 0 < (A_timerinterrupt σ.sender oob).1.windowcount
    have : 0 < σ.sender.windowcount := ih.1 ha
    constructor
    · intro _; exact this
    · intro _; rfl

/-! ## Duplicate and unmatched ACKs, the receiver's reply -/

theorem rd_neg_one {n : Nat} (a : CArray n) (oob : pkt) : a.rd oob (-1) = oob := by
  unfold CArray.rd
  rw [if_neg (by decide)]

theorem A_input_acked_entry (s : SenderState) (oob p : pkt) (i : Nat) (e : pkt)
    (h : Inv s) (h1 : IsCorrupted p = false) (h2 : p.seqnum = 0)
    (he : (window s)[i]? = some e) (hs : e.seqnum = p.acknum) (ha : e.acknum ≠ -1) :
    A_input s oob p = ({ s with total_ACKs_received := s.total_ACKs_received + 1 }, []) := by
  have hw := h.wc_le
  have hi : (i : Int) < s.windowcount := by
    by_contra c
    rw [window_getElem? s oob i hw, if_neg c] at he
    exact Option.noConfusion he
  have hrd : s.buffer.rd oob i = e := by
    rw [window_getElem? s oob i hw, if_pos hi, Option.some.injEq] at he
    exact he
  have hidx : BuffIndexPacket s oob p.acknum = i :=
    BuffIndexPacket_of_entry s oob p.acknum h i (by omega) hi (by rw [hrd]; exact hs)
  exact A_input_counted s oob p h1 h2 (Or.inr (by rw [hidx, hrd]; exact ha))

theorem A_input_unmatched (s : SenderState) (oob p : pkt) (h : Inv s)
    (h1 : IsCorrupted p = false) (h2 : p.seqnum = 0)
    (hidx : BuffIndexPacket s oob p.acknum = -1) (hw : s.windowcount ≠ 0) :
    A_input s oob p
      = if oob.acknum = -1 then
          ({ s with total_ACKs_received := s.total_ACKs_received + 1,
                    new_ACKs := s.new_ACKs + 1 },
            [Action.tolayer5 Side.B p.payload])
        else ({ s with total_ACKs_received := s.total_ACKs_received + 1 }, []) := by
  have hrd : s.buffer.rd oob (BuffIndexPacket s oob p.acknum) = oob := by
    rw [hidx]
    exact rd_neg_one _ _
  by_cases hc : oob.acknum = -1
  · rw [if_pos hc, A_input_new s oob p h1 h2 hw (by rw [hrd]; exact hc)]
    have hm : markStep s oob p.acknum
        = { s with total_ACKs_received := s.total_ACKs_received + 1,
                   new_ACKs := s.new_ACKs + 1 } := by
      unfold markStep
      simp [hidx]
    have hpos : 0 < s.windowcount := by
      have := h.wc_nonneg
      omega
    have hh : ((markStep s oob p.acknum).buffer.rd oob 0).acknum = -1 := by
      rw [hm]
      exact h.head hpos oob
    have hcs : compactStep (markStep s oob p.acknum) oob = markStep s oob p.acknum := by
      unfold compactStep
      rw [if_pos hh]
    rw [if_pos hh, hcs, hm]
  · rw [if_neg hc]
    exact A_input_counted s oob p h1 h2 (Or.inr (by rw [hrd]; exact hc))

theorem replyPkt_uncorrupted (a b : Int) : IsCorrupted (replyPkt a b) = false := by
  rw [IsCorrupted_eq_false_iff]
  rfl

theorem ackFor_eq (k : Int) : ackFor k = replyPkt 0 k := rfl

theorem B_input_accept (r : ReceiverState) (p : pkt)
    (h : IsCorrupted p = false ∧ p.acknum = -1) :
    B_input r p = ({ r with packets_received := r.packets_received + 1 },
      [Action.tolayer3 Side.B (replyPkt 0 p.seqnum)]) := by
  unfold B_input replyPkt
  simp [h.1, h.2]

theorem B_input_refuse (r : ReceiverState) (p : pkt)
    (h : ¬ (IsCorrupted p = false ∧ p.acknum = -1)) :
    B_input r p = (r, [Action.tolayer3 Side.B (replyPkt 1 p.seqnum)]) := by
  unfold B_input replyPkt
  have hd : decide (IsCorrupted p = false ∧ p.acknum = -1) = false := decide_eq_false h
  simp only [hd]
  rfl

/-! ## Deliveries, the receiver over several packets, `addTimer` -/

theorem delivered_append (a b : List Action) : delivered (a ++ b) = delivered a ++ delivered b := by
  induction a with
  | nil => rfl
  | cons x t ih =>
    cases x <;> simp [delivered, ih]

theorem sentPackets_append (a b : List Action) :
    sentPackets (a ++ b) = sentPackets a ++ sentPackets b := by
  induction a with
  | nil => rfl
  | cons x t ih =>
    cases x <;> simp [sentPackets, ih]

theorem timerAfter_append (armed : Bool) (a b : List Action) :
    timerAfter armed (a ++ b) = timerAfter (timerAfter armed a) b := by
  induction a generalizing armed with
  | nil => rfl
  | cons x t ih =>
    cases x with
    | tolayer3 sd q => exact ih armed
    | tolayer5 sd d => exact ih armed
    | starttimer sd n =>
      cases sd
      · exact ih true
      · exact ih armed
    | stoptimer sd =>
      cases sd
      · exact ih false
      · exact ih armed

theorem B_input_delivered (r : ReceiverState) (p : pkt) : delivered (B_input r p).2 = [] := rfl

theorem runB_delivered (r : ReceiverState) (ps : List pkt) : delivered (runB r ps).2 = [] := by
  induction ps generalizing r with
  | nil => rfl
  | cons p t ih =>
    show delivered ((B_input r p).2 ++ (runB (B_input r p).1 t).2) = []
    rw [delivered_append, ih, B_input_delivered]
    rfl

theorem runB_accepts (r : ReceiverState) (ps : List pkt)
    (h : ∀ p ∈ ps, IsCorrupted p = false ∧ p.acknum = -1) :
    (runB r ps).1.packets_received = r.packets_received + (ps.length : Int) ∧
    sentPackets (runB r ps).2 = ps.map (fun p => ackFor p.seqnum) := by
  induction ps generalizing r with
  | nil => exact ⟨by simp [runB], rfl⟩
  | cons p t ih =>
    have hp := h p (List.mem_cons_self _ _)
    obtain ⟨i1, i2⟩ := ih (B_input r p).1 (fun q hq => h q (List.mem_cons_of_mem _ hq))
    constructor
    · show (runB (B_input r p).1 t).1.packets_received = _
      rw [i1, B_input_accept r p hp]
      simp only [List.length_cons]
      push_cast
      ring
    · show sentPackets ((B_input r p).2 ++ (runB (B_input r p).1 t).2) = _
      rw [sentPackets_append, i2, B_input_accept r p hp]
      rfl

theorem A_input_new_ack_effects (s : SenderState) (oob p : pkt) (i : Nat) (e : pkt)
    (hr : Reachable s) (h1 : IsCorrupted p = false) (h2 : p.seqnum = 0)
    (he : (window s)[i]? = some e) (hs : e.seqnum = p.acknum) (hu : e.acknum = -1) :
    delivered (A_input s oob p).2 = [p.payload] ∧
    sentPackets (A_input s oob p).2 = [] ∧
    (A_input s oob p).1.new_ACKs = s.new_ACKs + 1 ∧
    (A_input s oob p).1.total_ACKs_received = s.total_ACKs_received + 1 ∧
    (A_input s oob p).1.window_full = s.window_full ∧
    (A_input s oob p).1.packets_resent = s.packets_resent ∧
    (A_input s oob p).1.timer = s.timer ∧
    (A_input s oob p).1.timercount = s.timercount := by
  have h := Inv_of_Reachable hr
  have hw := h.wc_le
  have hi : (i : Int) < s.windowcount := by
    by_contra c
    rw [window_getElem? s oob i hw, if_neg c] at he
    exact Option.noConfusion he
  have hrd : s.buffer.rd oob i = e := by
    rw [window_getElem? s oob i hw, if_pos hi, Option.some.injEq] at he
    exact he
  have hidx : BuffIndexPacket s oob p.acknum = i :=
    BuffIndexPacket_of_entry s oob p.acknum h i (by omega) hi (by rw [hrd]; exact hs)
  have h3 : s.windowcount ≠ 0 := by omega
  have h4 : (s.buffer.rd oob (BuffIndexPacket s oob p.acknum)).acknum = -1 := by
    rw [hidx, hrd]
    exact hu
  rw [A_input_new s oob p h1 h2 h3 h4]
  obtain ⟨_, f2, f3, f4, f5, f6, f7⟩ := compactStep_frame (markStep s oob p.acknum) oob
  obtain ⟨_, _, _, m4, m5, m6, m7, m8, m9⟩ := markStep_frame s oob p.acknum
  refine ⟨?_, ?_, by rw [f6, m8], by rw [f5, m7], by rw [f4, m6], by rw [f7, m9],
    by rw [f2, m4], by rw [f3, m5]⟩
  · split
    · rfl
    · split <;> rfl
  · split
    · rfl
    · split <;> rfl

theorem addTimer_eq (s : SenderState) (oob : pkt) (num : Int) :
    addTimer s oob num
      = if (s.buffer.rd oob (BuffIndexPacket s oob num)).acknum = -1 ∧
            TimerIndexPacket s oob num = -1 then
          { s with timer := s.timer.wr s.timercount (s.buffer.rd oob (BuffIndexPacket s oob num)),
                   timercount := Int.tmod (s.timercount + 1) SEQSPACE }
        else s := rfl

/-! ## `UpdateTimer` on the timer list -/

theorem timerList_getElem? (s : SenderState) (oob : pkt) (i : Nat) (h1 : s.timercount ≤ 12) :
    (timerList s)[i]? = if (i : Int) < s.timercount then some (s.timer.rd oob i) else none := by
  unfold timerList
  rw [List.getElem?_take]
  by_cases h : (i : Int) < s.timercount
  · have hi : i < s.timercount.toNat := by omega
    have hl : i < s.timer.cells.length := by rw [s.timer.size]; omega
    rw [if_pos hi, if_pos h, rd_nat, List.getD_eq_getElem?_getD, List.getElem?_eq_getElem hl]
    rfl
  · have hi : ¬ i < s.timercount.toNat := by omega
    rw [if_neg hi, if_neg h]

theorem timerList_length (s : SenderState) (h0 : 0 ≤ s.timercount) (h1 : s.timercount ≤ 12) :
    ((timerList s).length : Int) = s.timercount := by
  unfold timerList
  rw [List.length_take, s.timer.size]
  omega

theorem getD_of_getElem? {α : Type} (l : List α) (i : Nat) (d x : α) (h : l[i]? = some x) :
    l.getD i d = x := by
  rw [List.getD_eq_getElem?_getD, h]
  rfl

theorem timerList_UpdateTimer (s : SenderState) (oob : pkt) (h : Inv s) :
    timerList (UpdateTimer s oob) = keptTimers s oob := by
  obtain ⟨u1, u2⟩ := UpdateTimer_spec s oob
  obtain ⟨t0, t1⟩ := UpdateTimer_timercount s oob
  have h0 := h.tc_nonneg
  have h6 := h.tc_le
  apply List.ext_getElem?
  intro j
  rw [timerList_getElem? (UpdateTimer s oob) oob j (by omega), u2, u1]
  rw [u1] at t1
  by_cases c : (j : Int) < ((keptTimers s oob).length : Int)
  · have c2 : (0 : Int) ≤ (j : Int) ∧ (j : Int) < ((keptTimers s oob).length : Int) ∧
        (j : Int) < 12 := by omega
    have hj : j < (keptTimers s oob).length := by omega
    rw [if_pos c, if_pos c2, List.getElem?_eq_getElem hj]
    congr 1
    have : ((j : Int)).toNat = j := by omega
    rw [this, List.getD_eq_getElem?_getD, List.getElem?_eq_getElem hj]
    rfl
  · have hj : (keptTimers s oob).length ≤ j := by omega
    rw [if_neg c, List.getElem?_eq_none hj]

theorem intRange_cons (lo hi : Int) (h : lo < hi) :
    intRange lo hi = lo :: intRange (lo + 1) hi := by
  unfold intRange
  have e : (hi - lo).toNat = (hi - (lo + 1)).toNat + 1 := by omega
  rw [e, List.range_succ_eq_map, List.map_cons, List.map_map]
  congr 1
  · simp
  · apply List.map_congr_left
    intro k _
    simp only [Function.comp, Nat.succ_eq_add_one]
    push_cast
    ring

theorem drop_of_getElem? {α : Type} (l : List α) (k : Nat) (x : α) (h : l[k]? = some x) :
    l.drop k = x :: l.drop (k + 1) := by
  induction l generalizing k with
  | nil => simp at h
  | cons a t ih =>
    cases k with
    | zero =>
      simp only [List.getElem?_cons_zero, Option.some.injEq] at h
      subst h
      rfl
    | succ k =>
      simp only [List.getElem?_cons_succ] at h
      simpa using ih k h

theorem dupTimer_eq (s : SenderState) (oob : pkt) (k : Nat) (h1 : s.timercount ≤ 12) :
    dupTimer s oob k
      = if ((timerList s).drop (k + 1)).any
            (fun x => x.seqnum == (s.timer.rd oob k).seqnum) then 0 else -1 := by
  unfold dupTimer
  have hb : (intRange ((k : Int) + 1) s.timercount).any
        (fun i => (s.timer.rd oob k).seqnum == (s.timer.rd oob i).seqnum)
      = ((timerList s).drop (k + 1)).any
        (fun x => x.seqnum == (s.timer.rd oob k).seqnum) := by
    rw [Bool.eq_iff_iff, List.any_eq_true, List.any_eq_true]
    constructor
    · rintro ⟨i, hi, hq⟩
      rw [mem_intRange] at hi
      refine ⟨s.timer.rd oob i, ?_, ?_⟩
      · rw [List.mem_iff_getElem?]
        refine ⟨(i - (k + 1)).toNat, ?_⟩
        rw [List.getElem?_drop, timerList_getElem? s oob _ h1]
        have e : ((k + 1 + (i - ((k : Int) + 1)).toNat : Nat) : Int) = i := by omega
        rw [e, if_pos hi.2]
      · simp only [beq_iff_eq] at hq ⊢
        exact hq.symm
    · rintro ⟨x, hx, hq⟩
      rw [List.mem_iff_getElem?] at hx
      obtain ⟨j, hj⟩ := hx
      rw [List.getElem?_drop, timerList_getElem? s oob _ h1] at hj
      by_cases c : ((k + 1 + j : Nat) : Int) < s.timercount
      · rw [if_pos c, Option.some.injEq] at hj
        refine ⟨((k + 1 + j : Nat) : Int), ?_, ?_⟩
        · rw [mem_intRange]
          constructor
          · push_cast
            omega
          · exact c
        · rw [hj]
          simp only [beq_iff_eq] at hq ⊢
          exact hq.symm
      · rw [if_neg c] at hj
        exact Option.noConfusion hj
  rw [hb]

theorem keepLast_cons (keep : pkt → Bool) (q : pkt) (t : List pkt) :
    keepLast keep (q :: t)
      = if keep q && !(t.any (fun x => x.seqnum == q.seqnum)) then q :: keepLast keep t
        else keepLast keep t := rfl

theorem keptTimers_suffix (s : SenderState) (oob : pkt) (h1 : s.timercount ≤ 12) (m : Nat) :
    ∀ k : Nat, (s.timercount - (k : Int)).toNat = m →
      (intRange (k : Int) s.timercount).filterMap (fun i =>
          if (s.buffer.rd oob (BuffIndexPacket s oob (s.timer.rd oob i).seqnum)).acknum = -1 ∧
              dupTimer s oob i = -1 then
            some (s.timer.rd oob i)
          else none)
        = keepLast
            (fun q => decide ((s.buffer.rd oob (BuffIndexPacket s oob q.seqnum)).acknum = -1))
            ((timerList s).drop k) := by
  induction m with
  | zero =>
    intro k hk
    rw [intRange_empty _ _ (by omega)]
    have hl : (timerList s).length ≤ k := by
      unfold timerList
      rw [List.length_take]
      omega
    rw [List.drop_of_length_le hl]
    rfl
  | succ m ih =>
    intro k hk
    have hlt : (k : Int) < s.timercount := by omega
    have hget := timerList_getElem? s oob k h1
    rw [if_pos hlt] at hget
    rw [intRange_cons _ _ hlt, drop_of_getElem? _ _ _ hget, List.filterMap_cons]
    have ih2 := ih (k + 1) (by push_cast; omega)
    have ecast : (((k + 1 : Nat)) : Int) = (k : Int) + 1 := by push_cast; rfl
    rw [ecast] at ih2
    rw [ih2, dupTimer_eq s oob k h1, keepLast_cons]
    by_cases ha : (s.buffer.rd oob (BuffIndexPacket s oob (s.timer.rd oob k).seqnum)).acknum = -1
    · by_cases hb : ((timerList s).drop (k + 1)).any
          (fun x => x.seqnum == (s.timer.rd oob k).seqnum) = true
      · simp [ha, hb]
      · simp [ha, hb]
    · simp [ha]

theorem keptTimers_eq_keepLast (s : SenderState) (oob : pkt) (h1 : s.timercount ≤ 12) :
    keptTimers s oob
      = keepLast
          (fun q => decide ((s.buffer.rd oob (BuffIndexPacket s oob q.seqnum)).acknum = -1))
          (timerList s) := by
  have := keptTimers_suffix s oob h1 _ 0 rfl
  simpa [keptTimers] using this

theorem keepLast_subset (keep : pkt → Bool) (l : List pkt) (x : pkt)
    (h : x ∈ keepLast keep l) : x ∈ l := by
  induction l with
  | nil => exact h
  | cons q t ih =>
    unfold keepLast at h
    split at h
    · rcases List.mem_cons.1 h with h | h
      · rw [h]; exact List.mem_cons_self _ _
      · exact List.mem_cons_of_mem _ (ih h)
    · exact List.mem_cons_of_mem _ (ih h)

theorem keepLast_sublist (keep : pkt → Bool) (l : List pkt) :
    List.Sublist (keepLast keep l) l := by
  induction l with
  | nil => exact List.Sublist.slnil
  | cons q t ih =>
    unfold keepLast
    split
    · exact List.Sublist.cons₂ q ih
    · exact List.Sublist.cons q ih

theorem keepLast_nodup (keep : pkt → Bool) (l : List pkt) :
    ((keepLast keep l).map pkt.seqnum).Nodup := by
  induction l with
  | nil => exact List.nodup_nil
  | cons q t ih =>
    unfold keepLast
    split
    · rename_i hc
      rw [List.map_cons, List.nodup_cons]
      refine ⟨?_, ih⟩
      intro hm
      rw [List.mem_map] at hm
      obtain ⟨x, hx, hxs⟩ := hm
      have hxt := keepLast_subset keep t x hx
      simp only [Bool.and_eq_true, Bool.not_eq_true', List.any_eq_false, beq_iff_eq] at hc
      exact hc.2 x hxt hxs
    · exact ih

theorem codeKeep_of_entry (s : SenderState) (oob : pkt) (h : Inv s) (q e : pkt)
    (he : e ∈ window s) (hs : e.seqnum = q.seqnum) :
    (s.buffer.rd oob (BuffIndexPacket s oob q.seqnum)).acknum = e.acknum := by
  have hw := h.wc_le
  rw [List.mem_iff_getElem?] at he
  obtain ⟨i, hi⟩ := he
  have hlt : (i : Int) < s.windowcount := by
    by_contra c
    rw [window_getElem? s oob i hw, if_neg c] at hi
    exact Option.noConfusion hi
  have hrd : s.buffer.rd oob i = e := by
    rw [window_getElem? s oob i hw, if_pos hlt, Option.some.injEq] at hi
    exact hi
  rw [BuffIndexPacket_of_entry s oob q.seqnum h i (by omega) hlt (by rw [hrd]; exact hs), hrd]

theorem keepLast_mem_keep (keep : pkt → Bool) (l : List pkt) (x : pkt)
    (h : x ∈ keepLast keep l) : keep x = true := by
  induction l with
  | nil => exact absurd h (List.not_mem_nil x)
  | cons q t ih =>
    rw [keepLast_cons] at h
    split at h
    · rename_i hc
      rcases List.mem_cons.1 h with h | h
      · rw [h]
        simp only [Bool.and_eq_true] at hc
        exact hc.1
      · exact ih h
    · exact ih h

/-! ## Runs without loss -/

theorem run_append (s : SenderState) (a b : List Event) : run s (a ++ b) = run (run s a) b := by
  induction a generalizing s with
  | nil => rfl
  | cons e t ih => exact ih (step s e).1

theorem trace_append (s : SenderState) (a b : List Event) :
    trace s (a ++ b) = trace s a ++ trace (run s a) b := by
  induction a generalizing s with
  | nil => rfl
  | cons e t ih =>
    show (step s e).2 ++ trace (step s e).1 (t ++ b) = ((step s e).2 ++ trace (step s e).1 t) ++ _
    rw [ih (step s e).1, List.append_assoc]
    rfl

theorem SysReachable_run (σ : Sys) (es : List Event) (h : SysReachable σ)
    (hn : ∀ e ∈ es, isExpiry e = false) :
    SysReachable ⟨run σ.sender es, timerAfter σ.armed (trace σ.sender es)⟩ := by
  induction es generalizing σ with
  | nil =>
    cases σ
    exact h
  | cons e t ih =>
    have ht : ∀ x ∈ t, isExpiry x = false := fun x hx => hn x (List.mem_cons_of_mem _ hx)
    cases e with
    | output oob m =>
      have := ih _ (SysReachable.output oob m h) ht
      simp only [] at this
      show SysReachable ⟨run (A_output σ.sender oob m).1 t,
        timerAfter σ.armed ((A_output σ.sender oob m).2 ++ trace (A_output σ.sender oob m).1 t)⟩
      rw [timerAfter_append]
      exact this
    | input oob p =>
      have := ih _ (SysReachable.input oob p h) ht
      simp only [] at this
      show SysReachable ⟨run (A_input σ.sender oob p).1 t,
        timerAfter σ.armed ((A_input σ.sender oob p).2 ++ trace (A_input σ.sender oob p).1 t)⟩
      rw [timerAfter_append]
      exact this
    | timerinterrupt oob =>
      have := hn (Event.timerinterrupt oob) (List.mem_cons_self _ _)
      simp [isExpiry] at this

theorem A_output_open_effects (s : SenderState) (oob : pkt) (m : msg) (h : Inv s)
    (hw : s.windowcount < WINDOWSIZE) :
    window (A_output s oob m).1 = window s ++ [mkpkt s.A_nextseqnum m] ∧
    (A_output s oob m).1.window_full = s.window_full ∧
    (A_output s oob m).1.new_ACKs = s.new_ACKs ∧
    (A_output s oob m).1.packets_resent = s.packets_resent ∧
    (A_output s oob m).1.total_ACKs_received = s.total_ACKs_received := by
  obtain ⟨a1, _, a3, _, a5, a6, a7, a8⟩ := addTimer_frame (pushStep s m) oob s.A_nextseqnum
  rw [A_output_open s oob m h hw]
  refine ⟨?_, a5, a7, a8, a6⟩
  rw [← window_pushStep s m h.wc_nonneg hw]
  exact window_congr a1 a3

theorem run_outputs_window (s : SenderState) (es : List Event) (h : Inv s)
    (ho : ∀ e ∈ es, isOutput e = true) (hl : s.windowcount + es.length ≤ 6) :
    window (run s es) = window s ++ sentPackets (trace s es) ∧
    (∀ q ∈ sentPackets (trace s es), IsCorrupted q = false ∧ q.acknum = -1) ∧
    (sentPackets (trace s es)).length = es.length ∧
    (run s es).window_full = s.window_full ∧
    (run s es).new_ACKs = s.new_ACKs ∧
    (run s es).packets_resent = s.packets_resent := by
  induction es generalizing s with
  | nil =>
    refine ⟨?_, ?_, rfl, rfl, rfl, rfl⟩
    · show window s = window s ++ []
      rw [List.append_nil]
    · intro q hq
      exact absurd hq (List.not_mem_nil q)
  | cons e t ih =>
    cases e with
    | output oob m =>
      have hw : s.windowcount < WINDOWSIZE := by
        show s.windowcount < 6
        simp only [List.length_cons] at hl
        push_cast at hl
        omega
      have hc := A_output_open_windowcount s oob m h hw
      have hs := A_output_open_sent s oob m h hw
      obtain ⟨e1, e2, e3, e4, _⟩ := A_output_open_effects s oob m h hw
      obtain ⟨i1, i2, i3, i4, i5, i6⟩ := ih (A_output s oob m).1 (Inv_A_output s oob m h)
        (fun e he => ho e (List.mem_cons_of_mem _ he))
        (by rw [hc]; simp only [List.length_cons] at hl; push_cast at hl; omega)
      have ht : sentPackets (trace s (Event.output oob m :: t))
          = mkpkt s.A_nextseqnum m :: sentPackets (trace (A_output s oob m).1 t) := by
        show sentPackets ((A_output s oob m).2 ++ trace (A_output s oob m).1 t) = _
        rw [sentPackets_append, hs]
        rfl
      rw [ht]
      refine ⟨?_, ?_, ?_, ?_, ?_, ?_⟩
      · show window (run (A_output s oob m).1 t) = _
        rw [i1, e1, List.append_assoc]
        rfl
      · intro q hq
        rcases List.mem_cons.1 hq with hq | hq
        · rw [hq]
          exact ⟨mkpkt_uncorrupted _ _, rfl⟩
        · exact i2 q hq
      · rw [List.length_cons, i3, List.length_cons]
      · show (run (A_output s oob m).1 t).window_full = _
        rw [i4, e2]
      · show (run (A_output s oob m).1 t).new_ACKs = _
        rw [i5, e3]
      · show (run (A_output s oob m).1 t).packets_resent = _
        rw [i6, e4]
    | input oob q =>
      have := ho (Event.input oob q) (List.mem_cons_self _ _)
      simp [isOutput] at this
    | timerinterrupt oob =>
      have := ho (Event.timerinterrupt oob) (List.mem_cons_self _ _)
      simp [isOutput] at this

theorem ackFor_passes (k : Int) :
    IsCorrupted (ackFor k) = false ∧ (ackFor k).seqnum = 0 ∧ (ackFor k).acknum = k :=
  ⟨replyPkt_uncorrupted 0 k, rfl, rfl⟩

theorem dropWhile_unacked (l : List pkt) (h : ∀ e ∈ l, e.acknum = -1) :
    l.dropWhile isAcked = l := by
  cases l with
  | nil => rfl
  | cons a t =>
    have : isAcked a = false := by
      simp [isAcked, h a (List.mem_cons_self _ _)]
    rw [List.dropWhile_cons, this]
    rfl

theorem run_acks_in_order (w : List pkt) :
    ∀ (s : SenderState) (oobs : List pkt), Reachable s → window s = w →
      (∀ e ∈ w, e.acknum = -1) → oobs.length = w.length →
      window (run s (List.zipWith Event.input oobs (w.map (fun e => ackFor e.seqnum)))) = [] ∧
      (run s (List.zipWith Event.input oobs (w.map (fun e => ackFor e.seqnum)))).windowcount
        = 0 ∧
      (run s (List.zipWith Event.input oobs (w.map (fun e => ackFor e.seqnum)))).new_ACKs
        = s.new_ACKs + (w.length : Int) ∧
      (run s (List.zipWith Event.input oobs (w.map (fun e => ackFor e.seqnum)))).window_full
        = s.window_full ∧
      (run s (List.zipWith Event.input oobs (w.map (fun e => ackFor e.seqnum)))).packets_resent
        = s.packets_resent := by
  induction w with
  | nil =>
    intro s oobs hr hw _ _
    have hi := Inv_of_Reachable hr
    have hlen := window_length s hi.wc_nonneg hi.wc_le
    rw [hw] at hlen
    have hz : List.zipWith Event.input oobs (([] : List pkt).map (fun e => ackFor e.seqnum))
        = [] := by simp
    rw [hz]
    refine ⟨hw, ?_, ?_, rfl, rfl⟩
    · show s.windowcount = 0
      rw [← hlen]
      rfl
    · show s.new_ACKs = s.new_ACKs + ((([] : List pkt).length : Nat) : Int)
      simp
  | cons e rest ih =>
    intro s oobs hr hw hu hl
    cases oobs with
    | nil => simp at hl
    | cons o os =>
      obtain ⟨a1, a2, a3⟩ := ackFor_passes e.seqnum
      have he : (window s)[0]? = some e := by rw [hw]; simp
      obtain ⟨c1, _, _⟩ := A_input_new_ack_window s o (ackFor e.seqnum) 0 e hr a1 a2 he
        a3.symm (hu e (List.mem_cons_self _ _))
      obtain ⟨_, _, k3, _, k5, k6, _, _⟩ := A_input_new_ack_effects s o (ackFor e.seqnum) 0 e
        hr a1 a2 he a3.symm (hu e (List.mem_cons_self _ _))
      have hrest : ∀ x ∈ rest, x.acknum = -1 := fun x hx => hu x (List.mem_cons_of_mem _ hx)
      have hwin : window (A_input s o (ackFor e.seqnum)).1 = rest := by
        rw [c1, hw]
        show (markAcked e :: rest).dropWhile isAcked = rest
        have : isAcked (markAcked e) = true := rfl
        rw [List.dropWhile_cons, this]
        exact dropWhile_unacked rest hrest
      obtain ⟨i1, i2, i3, i4, i5⟩ := ih (A_input s o (ackFor e.seqnum)).1 os
        (Reachable.step (Event.input o (ackFor e.seqnum)) hr) hwin hrest
        (by simpa using hl)
      simp only [List.map_cons, List.zipWith_cons_cons, run, step]
      refine ⟨i1, i2, ?_, ?_, ?_⟩
      · rw [i3, k3]
        simp only [List.length_cons]
        push_cast
        ring
      · rw [i4, k5]
      · rw [i5, k6]

theorem zipWith_input_no_expiry (a b : List pkt) :
    ∀ e ∈ List.zipWith Event.input a b, isExpiry e = false := by
  induction a generalizing b with
  | nil =>
    intro e he
    simp at he
  | cons x t ih =>
    cases b with
    | nil =>
      intro e he
      simp at he
    | cons y u =>
      intro e he
      simp only [List.zipWith_cons_cons, List.mem_cons] at he
      rcases he with he | he
      · rw [he]
        rfl
      · exact ih u e he

theorem isExpiry_of_isOutput (e : Event) (h : isOutput e = true) : isExpiry e = false := by
  cases e with
  | output oob m => rfl
  | input oob p => rfl
  | timerinterrupt oob => simp [isOutput] at h

theorem admitted_append_output (s : SenderState) (l : List Event) (oob : pkt) (m : msg) :
    admitted s (l ++ [Event.output oob m])
      = admitted s l + (if (run s l).windowcount < WINDOWSIZE then 1 else 0) := by
  induction l generalizing s with
  | nil => simp [admitted, run]
  | cons e t ih =>
    cases e with
    | output o2 m2 =>
      show (if s.windowcount < WINDOWSIZE then 1 else 0)
          + admitted (A_output s o2 m2).1 (t ++ [Event.output oob m])
        = (if s.windowcount < WINDOWSIZE then 1 else 0) + admitted (A_output s o2 m2).1 t
          + (if (run (A_output s o2 m2).1 t).windowcount < WINDOWSIZE then 1 else 0)
      rw [ih]
      omega
    | input o2 q => exact ih (A_input s o2 q).1
    | timerinterrupt o2 => exact ih (A_timerinterrupt s o2).1

/-! ## C1, C2 -/

/-- C1: `ComputeChecksum p` is `seqnum + acknum +` the sum of the twenty payload
bytes in 32-bit `int` arithmetic (and exactly that sum whenever it fits an
`int`), and `IsCorrupted p` is `false` exactly when the stored checksum equals
`ComputeChecksum p`. -/
theorem checksum_contract (p : pkt) :
    ComputeChecksum p = wrapInt (p.seqnum + p.acknum + payloadSum p.payload) ∧
    ((-2147483648 ≤ p.seqnum + p.acknum + payloadSum p.payload ∧
        p.seqnum + p.acknum + payloadSum p.payload < 2147483648) →
      ComputeChecksum p = p.seqnum + p.acknum + payloadSum p.payload) ∧
    (IsCorrupted p = false ↔ p.checksum = ComputeChecksum p) := by
  refine ⟨ComputeChecksum_eq p, ?_, ?_⟩
  · intro h
    rw [ComputeChecksum_eq]
    exact wrapInt_of_range _ h.1 h.2
  · exact IsCorrupted_eq_false_iff p

/-- Witness of C1 for the packet that carries twenty `'A'` with sequence
number 0: its exact sum 1299 fits an `int`. -/
theorem checksum_contract_witness : ComputeChecksum (mkpkt 0 (letterMsg 0)) = 1299 :=
  ((checksum_contract (mkpkt 0 (letterMsg 0))).2.1 (by decide)).trans (by decide)

/-- C2: in an uncorrupted packet, replacing any single payload byte by a
different byte value while keeping the checksum field makes `IsCorrupted`
true; the checksum here is the sum reduced to a 32-bit `int`. -/
theorem single_byte_change_detected (p : pkt) (i : Fin 20) (b : CChar)
    (hp : IsCorrupted p = false) (hb : b ≠ p.payload.get i) :
    IsCorrupted { p with payload := p.payload.set i b } = true := by
  have hc : p.checksum = ComputeChecksum p := (IsCorrupted_eq_false_iff p).1 hp
  rw [IsCorrupted_eq_true_iff]
  show p.checksum ≠ ComputeChecksum { p with payload := p.payload.set i b }
  rw [hc, ComputeChecksum_eq, ComputeChecksum_eq]
  show wrapInt (p.seqnum + p.acknum + payloadSum p.payload)
    ≠ wrapInt (p.seqnum + p.acknum + payloadSum (p.payload.set i b))
  rw [payloadSum_set]
  have hne : b.val ≠ (p.payload.get i).val := by
    intro h
    apply hb
    cases b
    cases hq : p.payload.get i
    rw [hq] at h
    simp only at h
    subst h
    rfl
  have h1 := b.lo
  have h2 := b.hi
  have h3 := (p.payload.get i).lo
  have h4 := (p.payload.get i).hi
  unfold wrapInt
  omega

/-- Witness of C2: overwriting `payload[3]` of that packet with `'0'`. -/
theorem single_byte_change_detected_witness :
    IsCorrupted (mkpkt 0 (letterMsg 0)) = false ∧
    zeroChar ≠ (mkpkt 0 (letterMsg 0)).payload.get 3 ∧
    IsCorrupted { mkpkt 0 (letterMsg 0) with
      payload := (mkpkt 0 (letterMsg 0)).payload.set 3 zeroChar } = true :=
  ⟨by decide, by decide,
    single_byte_change_detected (mkpkt 0 (letterMsg 0)) 3 zeroChar (by decide) (by decide)⟩

/-! ## C3 -/

/-- C3: in a reachable state with `windowcount < WINDOWSIZE`, `A_output m`
builds the packet with `seqnum = A_nextseqnum`, `acknum = NOTINUSE = -1`,
payload `m.data` and its own checksum (so it is uncorrupted), appends it as
last window entry behind the unchanged earlier entries, adds one to
`windowcount`, hands exactly that packet once to `tolayer3`, starts the timer
exactly when the new `windowcount` is 1, and sets `A_nextseqnum` to
`(A_nextseqnum + 1) mod SEQSPACE`. -/
theorem A_output_admits (s : SenderState) (oob : pkt) (m : msg) (hr : Reachable s)
    (hw : s.windowcount < WINDOWSIZE) :
    (mkpkt s.A_nextseqnum m).seqnum = s.A_nextseqnum ∧
    (mkpkt s.A_nextseqnum m).acknum = NOTINUSE ∧
    NOTINUSE = -1 ∧
    (mkpkt s.A_nextseqnum m).payload = m.data ∧
    (mkpkt s.A_nextseqnum m).checksum = ComputeChecksum (mkpkt s.A_nextseqnum m) ∧
    IsCorrupted (mkpkt s.A_nextseqnum m) = false ∧
    window (A_output s oob m).1 = window s ++ [mkpkt s.A_nextseqnum m] ∧
    (A_output s oob m).1.windowcount = s.windowcount + 1 ∧
    sentPackets (A_output s oob m).2 = [mkpkt s.A_nextseqnum m] ∧
    delivered (A_output s oob m).2 = [] ∧
    (A_output s oob m).2 =
      (if (A_output s oob m).1.windowcount = 1 then
        [Action.tolayer3 Side.A (mkpkt s.A_nextseqnum m), Action.starttimer Side.A RTT]
      else [Action.tolayer3 Side.A (mkpkt s.A_nextseqnum m)]) ∧
    (A_output s oob m).1.A_nextseqnum = (s.A_nextseqnum + 1) % SEQSPACE := by
  have h := Inv_of_Reachable hr
  have hw6 : s.windowcount < 6 := hw
  obtain ⟨a1, _, a3, _⟩ := addTimer_frame (pushStep s m) oob s.A_nextseqnum
  have hwin : window (A_output s oob m).1 = window s ++ [mkpkt s.A_nextseqnum m] := by
    rw [A_output_open s oob m h hw, ← window_pushStep s m h.wc_nonneg hw6]
    exact window_congr a1 a3
  have hcnt : (A_output s oob m).1.windowcount = s.windowcount + 1 := by
    rw [A_output_open s oob m h hw]
    exact a3
  refine ⟨rfl, rfl, rfl, rfl, rfl, mkpkt_uncorrupted _ _, hwin, hcnt, ?_, ?_, ?_, ?_⟩
  · rw [A_output_open s oob m h hw]
    by_cases c : s.windowcount + 1 = 1
    · rw [if_pos c]; rfl
    · rw [if_neg c]; rfl
  · rw [A_output_open s oob m h hw]
    by_cases c : s.windowcount + 1 = 1
    · rw [if_pos c]; rfl
    · rw [if_neg c]; rfl
  · rw [hcnt]
    rw [A_output_open s oob m h hw]
    by_cases c : s.windowcount + 1 = 1
    · rw [if_pos c, if_pos c]; rfl
    · rw [if_neg c, if_neg c]; rfl
  · rw [A_output_open s oob m h hw]
    rfl

/-- Witness of C3: the second send after `A_init`. -/
theorem A_output_admits_witness :
    Reachable oneSent ∧ oneSent.windowcount < WINDOWSIZE ∧
    window (A_output oneSent zeroPkt (letterMsg 1)).1
      = window oneSent ++ [mkpkt oneSent.A_nextseqnum (letterMsg 1)] ∧
    (A_output oneSent zeroPkt (letterMsg 1)).1.windowcount = oneSent.windowcount + 1 :=
  ⟨Reachable_run _ _ (Reachable.init staticInit), by decide,
    (A_output_admits oneSent zeroPkt (letterMsg 1)
      (Reachable_run _ _ (Reachable.init staticInit)) (by decide)).2.2.2.2.2.2.1,
    (A_output_admits oneSent zeroPkt (letterMsg 1)
      (Reachable_run _ _ (Reachable.init staticInit)) (by decide)).2.2.2.2.2.2.2.1⟩

/-! ## C4 -/

/-- C4: with `windowcount == WINDOWSIZE` (6), `A_output` calls nothing in the
emulator (no transmission, no timer start or stop), leaves `buffer`,
`windowcount`, `windowlast`, `timer`, `timercount` and `A_nextseqnum` as they
are and adds exactly 1 to `window_full`; and after six sends in a row from
`A_init`, all admitted, the seventh is rejected and `windowcount` stays 6. -/
theorem A_output_rejects_when_full :
    (∀ (s : SenderState) (oob : pkt) (m : msg), s.windowcount = WINDOWSIZE →
      WINDOWSIZE = 6 ∧
      (A_output s oob m).2 = [] ∧
      (A_output s oob m).1.buffer = s.buffer ∧
      window (A_output s oob m).1 = window s ∧
      (A_output s oob m).1.windowcount = s.windowcount ∧
      (A_output s oob m).1.windowlast = s.windowlast ∧
      (A_output s oob m).1.timer = s.timer ∧
      (A_output s oob m).1.timercount = s.timercount ∧
      (A_output s oob m).1.A_nextseqnum = s.A_nextseqnum ∧
      (A_output s oob m).1.window_full = s.window_full + 1 ∧
      (A_output s oob m).1 = { s with window_full := s.window_full + 1 }) ∧
    (∀ (s0 : SenderState) (es : List Event) (oob : pkt) (m : msg),
      (∀ e ∈ es, isOutput e = true) → es.length = 6 →
      admitted (A_init s0) es = 6 ∧
      (run (A_init s0) es).windowcount = 6 ∧
      admitted (A_init s0) (es ++ [Event.output oob m]) = 6 ∧
      (A_output (run (A_init s0) es) oob m).2 = [] ∧
      (A_output (run (A_init s0) es) oob m).1.windowcount = 6 ∧
      (A_output (run (A_init s0) es) oob m).1.window_full
        = (run (A_init s0) es).window_full + 1) := by
  constructor
  · intro s oob m h
    have hn : ¬ s.windowcount < WINDOWSIZE := by rw [h]; exact lt_irrefl _
    rw [A_output_full s oob m hn]
    exact ⟨rfl, rfl, rfl, rfl, rfl, rfl, rfl, rfl, rfl, rfl, rfl⟩
  · intro s0 es oob m ho hl
    have hi := Inv_A_init s0
    have hz : (A_init s0).windowcount = 0 := rfl
    obtain ⟨r1, r2⟩ := run_outputs (A_init s0) es hi ho (by rw [hz, hl]; decide)
    rw [hz, hl] at r1
    have r1' : (run (A_init s0) es).windowcount = 6 := by rw [r1]; rfl
    have hn : ¬ (run (A_init s0) es).windowcount < WINDOWSIZE := by
      rw [r1']
      exact lt_irrefl _
    rw [A_output_full _ oob m hn]
    refine ⟨by rw [r2, hl], r1', ?_, rfl, r1', rfl⟩
    rw [admitted_append_output, if_neg hn, r2, hl]

/-- Witness of C4: the seventh send in a row after `A_init`. -/
theorem A_output_rejects_when_full_witness :
    (run (A_init staticInit) sixSends).windowcount = WINDOWSIZE ∧
    (A_output (run (A_init staticInit) sixSends) zeroPkt (letterMsg 6)).2 = [] ∧
    (A_output (run (A_init staticInit) sixSends) zeroPkt (letterMsg 6)).1.windowcount = 6 :=
  ⟨by decide,
    (A_output_rejects_when_full.1 (run (A_init staticInit) sixSends) zeroPkt (letterMsg 6)
      (by decide)).2.1,
    (A_output_rejects_when_full.2 staticInit sixSends zeroPkt (letterMsg 6)
      (by decide) (by decide)).2.2.2.2.1⟩

/-! ## C5 -/

/-- C5: in every sender state reachable from `A_init` by calls of `A_output`,
`A_input` (any packet) and `A_timerinterrupt`, `0 ≤ windowcount ≤ WINDOWSIZE`,
`buffer[i].seqnum = (buffer[0].seqnum + i) mod 12` for every `i < windowcount`,
`A_nextseqnum = (buffer[0].seqnum + windowcount) mod 12` when the window is not
empty, and the sequence numbers in the window are pairwise distinct. -/
theorem window_invariant (s : SenderState) (h : Reachable s) :
    0 ≤ s.windowcount ∧ s.windowcount ≤ WINDOWSIZE ∧
    (∀ (oob : pkt) (i : Int), 0 ≤ i → i < s.windowcount →
      (s.buffer.rd oob i).seqnum = ((s.buffer.rd oob 0).seqnum + i) % 12) ∧
    (0 < s.windowcount → ∀ oob : pkt,
      s.A_nextseqnum = ((s.buffer.rd oob 0).seqnum + s.windowcount) % 12) ∧
    (∀ (oob : pkt) (i j : Int), 0 ≤ i → i < j → j < s.windowcount →
      (s.buffer.rd oob i).seqnum ≠ (s.buffer.rd oob j).seqnum) ∧
    (∀ (i : Nat) (q q0 : pkt), (window s)[i]? = some q → (window s)[0]? = some q0 →
      q.seqnum = (q0.seqnum + (i : Int)) % 12) := by
  have hi := Inv_of_Reachable h
  have h0 := hi.wc_nonneg
  have h1 := hi.wc_le
  have n0 := hi.ns_nonneg
  have n1 := hi.ns_lt
  have hrd : ∀ (oob : pkt) (i : Int), 0 ≤ i → i < s.windowcount →
      (s.buffer.rd oob i).seqnum = ((s.buffer.rd oob 0).seqnum + i) % 12 := by
    intro oob i hi0 hi1
    rw [hi.seqs oob i hi0 hi1, hi.seqs oob 0 (le_refl _) (by omega)]
    omega
  refine ⟨h0, h1, hrd, ?_, ?_, ?_⟩
  · intro hpos oob
    rw [hi.seqs oob 0 (le_refl _) hpos]
    omega
  · intro oob i j hi0 hij hj
    rw [hi.seqs oob i hi0 (by omega), hi.seqs oob j (by omega) hj]
    omega
  · intro i q q0 hq hq0
    rw [window_getElem? s zeroPkt i h1] at hq
    rw [window_getElem? s zeroPkt 0 h1] at hq0
    by_cases c : (i : Int) < s.windowcount
    · have c0 : ((0 : Nat) : Int) < s.windowcount := by omega
      rw [if_pos c, Option.some.injEq] at hq
      rw [if_pos c0, Option.some.injEq] at hq0
      rw [← hq, ← hq0]
      exact hrd zeroPkt i (by omega) c
    · rw [if_neg c] at hq
      exact Option.noConfusion hq

/-- Witness of C5: the state after thirteen sends with their ACKs, whose
window holds the packet with the wrapped sequence number 0. -/
theorem window_invariant_witness :
    Reachable (run (A_init staticInit) thirteenSends) ∧
    (run (A_init staticInit) thirteenSends).windowcount = 1 ∧
    (0 < (run (A_init staticInit) thirteenSends).windowcount → ∀ oob : pkt,
      (run (A_init staticInit) thirteenSends).A_nextseqnum
        = (((run (A_init staticInit) thirteenSends).buffer.rd oob 0).seqnum
            + (run (A_init staticInit) thirteenSends).windowcount) % 12) :=
  ⟨Reachable_run _ _ (Reachable.init staticInit), by decide,
    (window_invariant (run (A_init staticInit) thirteenSends)
      (Reachable_run _ _ (Reachable.init staticInit))).2.2.2.1⟩

/-! ## C6 -/

/-- C6: after any sequence of events from `A_init`, `A_nextseqnum` is the number
of sends admitted so far mod `SEQSPACE`; the packets transmitted by the
admitted sends are as many as the admitted sends and the `n`-th of them
(from 0) carries sequence number `n mod 12`, so the thirteenth carries 0; a
rejected send, an inbound packet and a timer expiry leave `A_nextseqnum` as it
is. -/
theorem nextseqnum_counts_admitted :
    (∀ (s0 : SenderState) (es : List Event),
      (run (A_init s0) es).A_nextseqnum = (admitted (A_init s0) es : Int) % SEQSPACE ∧
      (sentNew (A_init s0) es).length = admitted (A_init s0) es ∧
      (∀ (n : Nat) (q : pkt), (sentNew (A_init s0) es)[n]? = some q →
        q.seqnum = (n : Int) % 12) ∧
      (∀ q : pkt, (sentNew (A_init s0) es)[12]? = some q → q.seqnum = 0)) ∧
    (∀ (s : SenderState) (oob : pkt) (m : msg), ¬ s.windowcount < WINDOWSIZE →
      (A_output s oob m).1.A_nextseqnum = s.A_nextseqnum) ∧
    (∀ (s : SenderState) (oob p : pkt), (A_input s oob p).1.A_nextseqnum = s.A_nextseqnum) ∧
    (∀ (s : SenderState) (oob : pkt),
      (A_timerinterrupt s oob).1.A_nextseqnum = s.A_nextseqnum) := by
  refine ⟨?_, A_output_full_nextseq, A_input_nextseq, A_timerinterrupt_nextseq⟩
  intro s0 es
  obtain ⟨c1, c2, c3⟩ := run_counts (A_init s0) es (Inv_A_init s0)
  have hz : (A_init s0).A_nextseqnum = 0 := rfl
  rw [hz] at c1 c3
  refine ⟨?_, c2, ?_, ?_⟩
  · rw [c1]
    show (0 + (admitted (A_init s0) es : Int)) % 12 = (admitted (A_init s0) es : Int) % 12
    rw [zero_add]
  · intro n q hq
    rw [c3 n q hq, zero_add]
  · intro q hq
    rw [c3 12 q hq]
    decide

/-- Witness of C6: in `thirteenSends` thirteen sends are admitted and the
thirteenth transmitted packet, built from `letterMsg 12`, carries sequence
number 0. -/
theorem nextseqnum_counts_admitted_witness :
    admitted (A_init staticInit) thirteenSends = 13 ∧
    (sentNew (A_init staticInit) thirteenSends)[12]? = some (mkpkt 0 (letterMsg 12)) ∧
    (mkpkt 0 (letterMsg 12)).seqnum = 0 ∧
    (run (A_init staticInit) thirteenSends).A_nextseqnum = 1 :=
  ⟨by decide, by decide,
    (nextseqnum_counts_admitted.1 staticInit thirteenSends).2.2.2 _ (by decide),
    ((nextseqnum_counts_admitted.1 staticInit thirteenSends).1).trans (by decide)⟩

/-! ## C7 -/

/-- C7: a packet that is corrupted or whose `seqnum` is not 0 is dropped by
`A_input` without any effect: no emulator call (nothing delivered, nothing
transmitted, no timer start or stop) and the sender state, with its window,
timer list, `A_nextseqnum` and counters, is unchanged. -/
theorem A_input_discards (s : SenderState) (oob p : pkt)
    (h : IsCorrupted p = true ∨ p.seqnum ≠ 0) :
    (A_input s oob p).2 = [] ∧
    (A_input s oob p).1 = s ∧
    window (A_input s oob p).1 = window s ∧
    (A_input s oob p).1.windowcount = s.windowcount ∧
    timerList (A_input s oob p).1 = timerList s ∧
    (A_input s oob p).1.timercount = s.timercount ∧
    (A_input s oob p).1.A_nextseqnum = s.A_nextseqnum ∧
    (A_input s oob p).1.total_ACKs_received = s.total_ACKs_received ∧
    (A_input s oob p).1.new_ACKs = s.new_ACKs := by
  rw [A_input_reject s oob p h]
  exact ⟨rfl, rfl, rfl, rfl, rfl, rfl, rfl, rfl, rfl⟩

/-- Witness of C7: an ACK for the outstanding packet 0 with a wrong checksum,
and an uncorrupted packet with `seqnum = 1`. -/
theorem A_input_discards_witness :
    IsCorrupted { ackFor 0 with checksum := 7 } = true ∧
    A_input oneSent zeroPkt { ackFor 0 with checksum := 7 } = (oneSent, []) ∧
    IsCorrupted (mkpkt 1 (letterMsg 0)) = false ∧
    A_input oneSent zeroPkt (mkpkt 1 (letterMsg 0)) = (oneSent, []) :=
  ⟨by decide,
    Prod.ext (A_input_discards oneSent zeroPkt { ackFor 0 with checksum := 7 }
        (Or.inl (by decide))).2.1
      (A_input_discards oneSent zeroPkt { ackFor 0 with checksum := 7 }
        (Or.inl (by decide))).1,
    by decide,
    Prod.ext (A_input_discards oneSent zeroPkt (mkpkt 1 (letterMsg 0))
        (Or.inr (by decide))).2.1
      (A_input_discards oneSent zeroPkt (mkpkt 1 (letterMsg 0)) (Or.inr (by decide))).1⟩

/-! ## C8 -/

/-- C8: in a reachable state, an uncorrupted packet with `seqnum` 0 whose
`acknum` is the sequence number of a window entry that is still unacked makes
`A_input` leave the window equal to the old window with that entry marked
acked and its longest prefix of acked entries removed, `windowcount` going
down by the length of that prefix; an ACK for an entry that is not the head
retires nothing; and with the entries 0, 1, 2 outstanding, the ACK for 1
leaves all three in the window and the following ACK for 0 leaves exactly
entry 2. -/
theorem A_input_new_ack_compacts :
    (∀ (s : SenderState) (oob p : pkt) (i : Nat) (e : pkt),
      Reachable s → IsCorrupted p = false → p.seqnum = 0 →
      (window s)[i]? = some e → e.seqnum = p.acknum → e.acknum = -1 →
      window (A_input s oob p).1 = ((window s).set i (markAcked e)).dropWhile isAcked ∧
      (A_input s oob p).1.windowcount
        = s.windowcount - ((((window s).set i (markAcked e)).takeWhile isAcked).length : Int) ∧
      (i ≠ 0 → window (A_input s oob p).1 = (window s).set i (markAcked e) ∧
        (A_input s oob p).1.windowcount = s.windowcount)) ∧
    (∀ (s : SenderState) (o1 o2 a1 a0 e0 e1 e2 : pkt),
      Reachable s → window s = [e0, e1, e2] →
      e0.seqnum = 0 → e1.seqnum = 1 → e2.seqnum = 2 →
      e0.acknum = -1 → e1.acknum = -1 → e2.acknum = -1 →
      IsCorrupted a1 = false → a1.seqnum = 0 → a1.acknum = 1 →
      IsCorrupted a0 = false → a0.seqnum = 0 → a0.acknum = 0 →
      window (A_input s o1 a1).1 = [e0, markAcked e1, e2] ∧
      window (A_input (A_input s o1 a1).1 o2 a0).1 = [e2]) := by
  constructor
  · intro s oob p i e hr h1 h2 he hs hu
    obtain ⟨c1, c2, _⟩ := A_input_new_ack_window s oob p i e hr h1 h2 he hs hu
    exact ⟨c1, c2, fun hi => A_input_new_ack_not_head s oob p i e hr h1 h2 he hs hu hi⟩
  · intro s o1 o2 a1 a0 e0 e1 e2 hr hw s0 s1 s2 u0 u1 u2 c1 q1 k1 c0 q0 k0
    have w1 : window (A_input s o1 a1).1 = [e0, markAcked e1, e2] := by
      have := (A_input_new_ack_not_head s o1 a1 1 e1 hr c1 q1 (by rw [hw]; rfl)
        (by rw [s1, k1]) u1 (by decide)).1
      rw [this, hw]
      rfl
    refine ⟨w1, ?_⟩
    have hr2 : Reachable (A_input s o1 a1).1 := Reachable.step (Event.input o1 a1) hr
    have := (A_input_new_ack_window (A_input s o1 a1).1 o2 a0 0 e0 hr2 c0 q0 (by rw [w1]; rfl)
      (by rw [s0, k0]) u0).1
    rw [this, w1]
    simp [isAcked, markAcked, u2]

/-- Witness of C8: after three sends from `A_init`, the ACK for 1 followed by
the ACK for 0. -/
theorem A_input_new_ack_compacts_witness :
    window (A_input (run (A_init staticInit) (sixSends.take 3)) zeroPkt (ackFor 1)).1
      = [mkpkt 0 (letterMsg 0), markAcked (mkpkt 1 (letterMsg 1)), mkpkt 2 (letterMsg 2)] ∧
    window (A_input (A_input (run (A_init staticInit) (sixSends.take 3)) zeroPkt (ackFor 1)).1
        zeroPkt (ackFor 0)).1
      = [mkpkt 2 (letterMsg 2)] ∧
    (A_input (A_input (run (A_init staticInit) (sixSends.take 3)) zeroPkt (ackFor 1)).1
        zeroPkt (ackFor 0)).1.windowcount = 1 :=
  ⟨(A_input_new_ack_compacts.2 (run (A_init staticInit) (sixSends.take 3)) zeroPkt zeroPkt
      (ackFor 1) (ackFor 0) (mkpkt 0 (letterMsg 0)) (mkpkt 1 (letterMsg 1))
      (mkpkt 2 (letterMsg 2)) (Reachable_run _ _ (Reachable.init staticInit))
      (by decide) (by decide) (by decide) (by decide) (by decide) (by decide) (by decide)
      (by decide) (by decide) (by decide) (by decide) (by decide) (by decide)).1,
    (A_input_new_ack_compacts.2 (run (A_init staticInit) (sixSends.take 3)) zeroPkt zeroPkt
      (ackFor 1) (ackFor 0) (mkpkt 0 (letterMsg 0)) (mkpkt 1 (letterMsg 1))
      (mkpkt 2 (letterMsg 2)) (Reachable_run _ _ (Reachable.init staticInit))
      (by decide) (by decide) (by decide) (by decide) (by decide) (by decide) (by decide)
      (by decide) (by decide) (by decide) (by decide) (by decide) (by decide)).2,
    ((A_input_new_ack_compacts.1
      (A_input (run (A_init staticInit) (sixSends.take 3)) zeroPkt (ackFor 1)).1 zeroPkt
      (ackFor 0) 0 (mkpkt 0 (letterMsg 0))
      (Reachable.step (Event.input zeroPkt (ackFor 1))
        (Reachable_run _ _ (Reachable.init staticInit)))
      (by decide) (by decide) (by decide) (by decide) (by decide)).2.1).trans (by decide)⟩

/-! ## C9 -/

/-- C9, the code where the claim fails.  After two sends, the ACKs for both and
a third send, the window holds only the packet 2 of the third message, its
timer is armed, and whatever a read outside `buffer` yields, the timer expiry
transmits the packet 0 of the first message, which left the window long
before: `addTimer` did not register packet 2 (`TimerIndexPacket` searches
`buffer`, and found it there) and `UpdateTimer` leaves `timer[0]` as it was.
In the scenario of the claim (six sends, only the ACK for 2 lost) the
retransmitted packet is 2 or 0 depending on what the read of `buffer[-1]` in
`UpdateTimer` yields. -/
theorem A_timerinterrupt_resends_retired :
    Reachable (run (A_init staticInit) staleTimerEvents) ∧
    window (run (A_init staticInit) staleTimerEvents) = [mkpkt 2 (letterMsg 2)] ∧
    timerAfter false (trace (A_init staticInit) staleTimerEvents) = true ∧
    (∀ oob : pkt, (A_timerinterrupt (run (A_init staticInit) staleTimerEvents) oob).2
      = [Action.tolayer3 Side.A (mkpkt 0 (letterMsg 0)), Action.starttimer Side.A RTT]) ∧
    (A_timerinterrupt (run (A_init staticInit) lostAckEvents) zeroPkt).2
      = [Action.tolayer3 Side.A (mkpkt 2 (letterMsg 2)), Action.starttimer Side.A RTT] ∧
    (A_timerinterrupt (run (A_init staticInit) lostAckEvents) { zeroPkt with acknum := -1 }).2
      = [Action.tolayer3 Side.A (mkpkt 0 (letterMsg 0)), Action.starttimer Side.A RTT] := by
  refine ⟨Reachable_run _ _ (Reachable.init staticInit), by decide, by decide, ?_,
    by decide, by decide⟩
  intro oob
  show [Action.tolayer3 Side.A
      ((UpdateTimer (run (A_init staticInit) staleTimerEvents) oob).timer.rd oob 0),
      Action.starttimer Side.A RTT] = _
  rw [(UpdateTimer_spec _ oob).2 oob 0, keptTimers_stale]
  by_cases h : oob.acknum = -1
  · rw [if_pos h]
    rfl
  · rw [if_neg h]
    rfl

/-! ## C10 -/

/-- C10: in every state of sender and emulator timer reachable from `A_init`,
where the timer goes off only while armed and is disarmed by going off, the
timer is armed after a handler has returned exactly when `windowcount > 0`; so
an inbound packet that empties the window leaves the timer disarmed, and a
send into an empty window arms it. -/
theorem timer_armed_iff_window_nonempty (σ : Sys) (h : SysReachable σ) :
    (σ.armed = true ↔ 0 < σ.sender.windowcount) ∧
    (∀ oob p : pkt, (A_input σ.sender oob p).1.windowcount = 0 →
      timerAfter σ.armed (A_input σ.sender oob p).2 = false) ∧
    (∀ (oob : pkt) (m : msg), σ.sender.windowcount = 0 →
      σ.armed = false ∧
      (A_output σ.sender oob m).1.windowcount = 1 ∧
      timerAfter σ.armed (A_output σ.sender oob m).2 = true) := by
  refine ⟨armed_iff_of_SysReachable h, ?_, ?_⟩
  · intro oob p hz
    have := armed_iff_of_SysReachable (SysReachable.input oob p h)
    simp only [hz, lt_irrefl, iff_false] at this
    cases hb : timerAfter σ.armed (A_input σ.sender oob p).2
    · rfl
    · exact absurd hb this
  · intro oob m hz
    have hi := Inv_of_SysReachable h
    have hw : σ.sender.windowcount < WINDOWSIZE := by rw [hz]; decide
    have hc := A_output_open_windowcount σ.sender oob m hi hw
    rw [hz] at hc
    have h1 := armed_iff_of_SysReachable h
    have h2 := armed_iff_of_SysReachable (SysReachable.output oob m h)
    refine ⟨?_, by rw [hc]; rfl, ?_⟩
    · rw [hz] at h1
      cases hb : σ.armed
      · rfl
      · exact absurd (h1.1 hb) (lt_irrefl _)
    · apply h2.2
      show 0 < (A_output σ.sender oob m).1.windowcount
      rw [hc]
      decide

/-- Witness of C10: the first send arms the timer, the ACK for it disarms it,
and the next send arms it again. -/
theorem timer_armed_iff_window_nonempty_witness :
    timerAfter false (A_output (A_init staticInit) zeroPkt (letterMsg 0)).2 = true ∧
    timerAfter (timerAfter false (A_output (A_init staticInit) zeroPkt (letterMsg 0)).2)
      (A_input (A_output (A_init staticInit) zeroPkt (letterMsg 0)).1 zeroPkt (ackFor 0)).2
      = false ∧
    (A_input (A_output (A_init staticInit) zeroPkt (letterMsg 0)).1 zeroPkt
      (ackFor 0)).1.windowcount = 0 ∧
    timerAfter
      (timerAfter (timerAfter false (A_output (A_init staticInit) zeroPkt (letterMsg 0)).2)
        (A_input (A_output (A_init staticInit) zeroPkt (letterMsg 0)).1 zeroPkt (ackFor 0)).2)
      (A_output
        (A_input (A_output (A_init staticInit) zeroPkt (letterMsg 0)).1 zeroPkt (ackFor 0)).1
        zeroPkt (letterMsg 1)).2 = true :=
  ⟨(timer_armed_iff_window_nonempty _ (SysReachable.init staticInit)).2.2 zeroPkt
      (letterMsg 0) (by decide) |>.2.2,
    (timer_armed_iff_window_nonempty _
      (SysReachable.output zeroPkt (letterMsg 0) (SysReachable.init staticInit))).2.1
      zeroPkt (ackFor 0) (by decide),
    by decide,
    (timer_armed_iff_window_nonempty _
      (SysReachable.input zeroPkt (ackFor 0)
        (SysReachable.output zeroPkt (letterMsg 0) (SysReachable.init staticInit)))).2.2
      zeroPkt (letterMsg 1) (by decide) |>.2.2⟩

/-! ## C11 -/

/-- C11: in a reachable state, an uncorrupted packet with `seqnum` 0 whose
`acknum` is the sequence number of a window entry that is already marked
acked makes `A_input` call nothing in the emulator (no delivery, no
transmission, no timer start or stop) and leave the window, `windowcount`,
the timer list, `timercount`, `A_nextseqnum` and `new_ACKs` as they are; only
`total_ACKs_received` goes up by one. -/
theorem A_input_duplicate_ack (s : SenderState) (oob p : pkt) (i : Nat) (e : pkt)
    (hr : Reachable s) (h1 : IsCorrupted p = false) (h2 : p.seqnum = 0)
    (he : (window s)[i]? = some e) (hs : e.seqnum = p.acknum) (ha : e.acknum ≠ -1) :
    (A_input s oob p).2 = [] ∧
    delivered (A_input s oob p).2 = [] ∧
    sentPackets (A_input s oob p).2 = [] ∧
    window (A_input s oob p).1 = window s ∧
    (A_input s oob p).1.buffer = s.buffer ∧
    (A_input s oob p).1.windowcount = s.windowcount ∧
    timerList (A_input s oob p).1 = timerList s ∧
    (A_input s oob p).1.timer = s.timer ∧
    (A_input s oob p).1.timercount = s.timercount ∧
    (A_input s oob p).1.A_nextseqnum = s.A_nextseqnum ∧
    (A_input s oob p).1.new_ACKs = s.new_ACKs ∧
    (A_input s oob p).1.total_ACKs_received = s.total_ACKs_received + 1 ∧
    (A_input s oob p).1 = { s with total_ACKs_received := s.total_ACKs_received + 1 } := by
  rw [A_input_acked_entry s oob p i e (Inv_of_Reachable hr) h1 h2 he hs ha]
  exact ⟨rfl, rfl, rfl, rfl, rfl, rfl, rfl, rfl, rfl, rfl, rfl, rfl, rfl⟩

/-- Witness of C11: after three sends and the ACK for the second, a second
ACK for the second. -/
theorem A_input_duplicate_ack_witness :
    (window (run (A_init staticInit) secondAcked))[1]? = some (markAcked (mkpkt 1 (letterMsg 1))) ∧
    A_input (run (A_init staticInit) secondAcked) zeroPkt (ackFor 1)
      = ({ run (A_init staticInit) secondAcked with
            total_ACKs_received :=
              (run (A_init staticInit) secondAcked).total_ACKs_received + 1 }, []) :=
  ⟨by decide,
    Prod.ext
      (A_input_duplicate_ack (run (A_init staticInit) secondAcked) zeroPkt (ackFor 1) 1
        (markAcked (mkpkt 1 (letterMsg 1))) (Reachable_run _ _ (Reachable.init staticInit))
        (by decide) (by decide) (by decide) (by decide) (by decide)).2.2.2.2.2.2.2.2.2.2.2.2
      (A_input_duplicate_ack (run (A_init staticInit) secondAcked) zeroPkt (ackFor 1) 1
        (markAcked (mkpkt 1 (letterMsg 1))) (Reachable_run _ _ (Reachable.init staticInit))
        (by decide) (by decide) (by decide) (by decide) (by decide)).1⟩

/-! ## C12 -/

/-- C12, the code where the claim fails.  After two sends and the ACK for the
first, the window holds only packet 1; a second, uncorrupted ACK for packet 0
matches no window entry, `BuffIndexPacket` returns `-1` while `windowcount` is
1, so `A_input` reads `buffer[-1].acknum`, outside the window buffer.  When
that read yields `-1` the ACK is taken for a new one: `new_ACKs` goes up and
the payload is delivered upward; otherwise only `total_ACKs_received` goes
up.  In both cases the window and the timer list stay as they are and no
timer call is made. -/
theorem A_input_unmatched_reads_outside :
    Reachable (run (A_init staticInit) firstRetired) ∧
    window (run (A_init staticInit) firstRetired) = [mkpkt 1 (letterMsg 1)] ∧
    IsCorrupted (ackFor 0) = false ∧ (ackFor 0).seqnum = 0 ∧ (ackFor 0).acknum = 0 ∧
    (run (A_init staticInit) firstRetired).windowcount = 1 ∧
    (∀ oob : pkt,
      BuffIndexPacket (run (A_init staticInit) firstRetired) oob (ackFor 0).acknum = -1) ∧
    (∀ oob : pkt, oob.acknum = -1 →
      A_input (run (A_init staticInit) firstRetired) oob (ackFor 0)
        = ({ run (A_init staticInit) firstRetired with
              total_ACKs_received :=
                (run (A_init staticInit) firstRetired).total_ACKs_received + 1,
              new_ACKs := (run (A_init staticInit) firstRetired).new_ACKs + 1 },
            [Action.tolayer5 Side.B (ackFor 0).payload])) ∧
    (∀ oob : pkt, oob.acknum ≠ -1 →
      A_input (run (A_init staticInit) firstRetired) oob (ackFor 0)
        = ({ run (A_init staticInit) firstRetired with
              total_ACKs_received :=
                (run (A_init staticInit) firstRetired).total_ACKs_received + 1 }, [])) := by
  have hr : Reachable (run (A_init staticInit) firstRetired) :=
    Reachable_run _ _ (Reachable.init staticInit)
  have hidx : ∀ oob : pkt,
      BuffIndexPacket (run (A_init staticInit) firstRetired) oob (ackFor 0).acknum = -1 :=
    fun _ => rfl
  refine ⟨hr, by decide, by decide, by decide, by decide, by decide, hidx, ?_, ?_⟩
  · intro oob hc
    rw [A_input_unmatched _ oob (ackFor 0) (Inv_of_Reachable hr) (by decide) (by decide)
      (hidx oob) (by decide), if_pos hc]
  · intro oob hc
    rw [A_input_unmatched _ oob (ackFor 0) (Inv_of_Reachable hr) (by decide) (by decide)
      (hidx oob) (by decide), if_neg hc]

/-! ## C13 -/

/-- C13: for every inbound packet `p`, `B_input` makes exactly one emulator
call, the transmission of one packet whose `acknum` is `p.seqnum`, whose
payload is twenty `'0'` and which is uncorrupted; the reply has `seqnum` 0
exactly when `p` is uncorrupted with `acknum = NOTINUSE = -1`, and then
`packets_received` goes up by 1; otherwise the reply has `seqnum` 1 and
`packets_received` is unchanged. -/
theorem B_input_replies (r : ReceiverState) (p : pkt) :
    (B_input r p).2.length = 1 ∧
    (sentPackets (B_input r p).2).length = 1 ∧
    (∀ q ∈ sentPackets (B_input r p).2,
      q.acknum = p.seqnum ∧
      q.payload.bytes = List.replicate 20 zeroChar ∧
      IsCorrupted q = false ∧
      (q.seqnum = 0 ↔ (IsCorrupted p = false ∧ p.acknum = NOTINUSE)) ∧
      (q.seqnum = 0 ∨ q.seqnum = 1)) ∧
    NOTINUSE = -1 ∧ zeroChar.val = 48 ∧
    ((IsCorrupted p = false ∧ p.acknum = NOTINUSE) →
      (B_input r p).1.packets_received = r.packets_received + 1 ∧
      sentPackets (B_input r p).2 = [replyPkt 0 p.seqnum]) ∧
    (¬ (IsCorrupted p = false ∧ p.acknum = NOTINUSE) →
      (B_input r p).1.packets_received = r.packets_received ∧
      sentPackets (B_input r p).2 = [replyPkt 1 p.seqnum]) := by
  by_cases h : IsCorrupted p = false ∧ p.acknum = -1
  · rw [B_input_accept r p h]
    refine ⟨rfl, rfl, ?_, rfl, rfl, fun _ => ⟨rfl, rfl⟩, fun hn => absurd h hn⟩
    intro q hq
    have hq2 : q = replyPkt 0 p.seqnum := by simpa [sentPackets] using hq
    subst hq2
    exact ⟨rfl, rfl, replyPkt_uncorrupted _ _, ⟨fun _ => h, fun _ => rfl⟩, Or.inl rfl⟩
  · rw [B_input_refuse r p h]
    refine ⟨rfl, rfl, ?_, rfl, rfl, fun hn => absurd hn h, fun _ => ⟨rfl, rfl⟩⟩
    intro q hq
    have hq2 : q = replyPkt 1 p.seqnum := by simpa [sentPackets] using hq
    subst hq2
    refine ⟨rfl, rfl, replyPkt_uncorrupted _ _, ⟨fun h0 => ?_, fun ha => absurd ha h⟩, Or.inr rfl⟩
    have h1 : (replyPkt 1 p.seqnum).seqnum = 1 := rfl
    rw [h1] at h0
    exact absurd h0 (by decide)

/-- Witness of C13: the packet of the first message is accepted and answered
by the ACK for 0; the same packet with a wrong checksum is answered with
`seqnum` 1. -/
theorem B_input_replies_witness :
    B_input ⟨0⟩ (mkpkt 0 (letterMsg 0)) = (⟨1⟩, [Action.tolayer3 Side.B (ackFor 0)]) ∧
    (B_input ⟨0⟩ { mkpkt 0 (letterMsg 0) with checksum := 7 }).1.packets_received = 0 ∧
    sentPackets (B_input ⟨0⟩ { mkpkt 0 (letterMsg 0) with checksum := 7 }).2
      = [replyPkt 1 0] :=
  ⟨by decide,
    ((B_input_replies ⟨0⟩ { mkpkt 0 (letterMsg 0) with checksum := 7 }).2.2.2.2.2.2
      (by decide)).1,
    ((B_input_replies ⟨0⟩ { mkpkt 0 (letterMsg 0) with checksum := 7 }).2.2.2.2.2.2
      (by decide)).2⟩

/-! ## C14 -/

/-- C14, the code where the claim fails.  The packet that `A_output` builds for
the first message is an uncorrupted data packet (`acknum = NOTINUSE`), and
`B_input` counts and acknowledges it but delivers nothing upward: it makes no
`tolayer5` call.  The same holds for the six packets of `sixSends` passed
through `B_input` in order: six packets counted, the ACKs for 0..5 sent in
order, nothing delivered.  In that whole run without loss what reaches
`tolayer5` comes from `A_input`, one call per ACK, each with the payload of the
ACK, twenty `'0'`; the payloads of the six messages are never delivered. -/
theorem B_input_makes_no_delivery :
    IsCorrupted (mkpkt 0 (letterMsg 0)) = false ∧
    (mkpkt 0 (letterMsg 0)).acknum = NOTINUSE ∧
    (mkpkt 0 (letterMsg 0)).payload = (letterMsg 0).data ∧
    B_input ⟨0⟩ (mkpkt 0 (letterMsg 0)) = (⟨1⟩, [Action.tolayer3 Side.B (ackFor 0)]) ∧
    delivered (B_input ⟨0⟩ (mkpkt 0 (letterMsg 0))).2 = [] ∧
    delivered (B_input ⟨0⟩ (mkpkt 0 (letterMsg 0))).2 ≠ [(mkpkt 0 (letterMsg 0)).payload] ∧
    sentPackets (trace (A_init staticInit) sixSends)
      = [mkpkt 0 (letterMsg 0), mkpkt 1 (letterMsg 1), mkpkt 2 (letterMsg 2),
         mkpkt 3 (letterMsg 3), mkpkt 4 (letterMsg 4), mkpkt 5 (letterMsg 5)] ∧
    (runB ⟨0⟩ (sentPackets (trace (A_init staticInit) sixSends))).1.packets_received = 6 ∧
    sentPackets (runB ⟨0⟩ (sentPackets (trace (A_init staticInit) sixSends))).2
      = [ackFor 0, ackFor 1, ackFor 2, ackFor 3, ackFor 4, ackFor 5] ∧
    delivered (runB ⟨0⟩ (sentPackets (trace (A_init staticInit) sixSends))).2 = [] ∧
    delivered (trace (A_init staticInit)
        (sixSends ++ ackEvents staticInit ⟨0⟩ sixSends (List.replicate 6 zeroPkt)))
      = List.replicate 6 (constPayload zeroChar) ∧
    (∀ (r : ReceiverState) (p : pkt), delivered (B_input r p).2 = []) :=
  ⟨by decide, by decide, rfl, by decide, by decide, by decide, by decide, by decide, by decide,
    by decide, by decide, B_input_delivered⟩

/-! ## C15 -/

/-- C15, the code where the claim fails.  After the send of twenty `'A'`, the
window entry for sequence number 0 stores that payload; for the ACK that the
receiver sends for it, `A_input` delivers upward, once, the payload of the ACK
packet itself, twenty `'0'`, and not the stored payload. -/
theorem A_input_delivers_ack_payload :
    Reachable oneSent ∧
    window oneSent = [mkpkt 0 (letterMsg 0)] ∧
    (mkpkt 0 (letterMsg 0)).payload = (letterMsg 0).data ∧
    sentPackets (B_input ⟨0⟩ (mkpkt 0 (letterMsg 0))).2 = [ackFor 0] ∧
    (∀ oob : pkt, delivered (A_input oneSent oob (ackFor 0)).2 = [constPayload zeroChar]) ∧
    constPayload zeroChar ≠ (letterMsg 0).data := by
  have hr : Reachable oneSent := Reachable_run _ _ (Reachable.init staticInit)
  refine ⟨hr, by decide, rfl, by decide, ?_, by decide⟩
  intro oob
  exact (A_input_new_ack_effects oneSent oob (ackFor 0) 0 (mkpkt 0 (letterMsg 0)) hr
    (by decide) (by decide) (by decide) (by decide) (by decide)).1

/-! ## C16 -/

/-- C16: for every six messages, `A_init` (with the counters at 0), then
`A_output` on each of them, then every transmitted packet passed unmodified
and in order through `B_input` and every reply passed unmodified and in order
through `A_input`, with no timer expiry, ends with `window_full = 0`,
`packets_resent = 0`, `new_ACKs = 6`, `packets_received = 6`, an empty window
(`windowcount = 0`) and the timer disarmed. -/
theorem lossless_run_of_six (s0 : SenderState) (r0 : ReceiverState) (es : List Event)
    (oobs : List pkt) (ho : ∀ e ∈ es, isOutput e = true) (hl : es.length = 6)
    (hb : oobs.length = 6) (c1 : s0.window_full = 0) (c2 : s0.packets_resent = 0)
    (c3 : s0.new_ACKs = 0) (c4 : r0.packets_received = 0) :
    (sentPackets (trace (A_init s0) es)).length = 6 ∧
    (ackEvents s0 r0 es oobs).length = 6 ∧
    (∀ e ∈ es ++ ackEvents s0 r0 es oobs, isExpiry e = false) ∧
    (run (A_init s0) (es ++ ackEvents s0 r0 es oobs)).window_full = 0 ∧
    (run (A_init s0) (es ++ ackEvents s0 r0 es oobs)).packets_resent = 0 ∧
    (run (A_init s0) (es ++ ackEvents s0 r0 es oobs)).new_ACKs = 6 ∧
    (runB r0 (sentPackets (trace (A_init s0) es))).1.packets_received = 6 ∧
    window (run (A_init s0) (es ++ ackEvents s0 r0 es oobs)) = [] ∧
    (run (A_init s0) (es ++ ackEvents s0 r0 es oobs)).windowcount = 0 ∧
    timerAfter false (trace (A_init s0) (es ++ ackEvents s0 r0 es oobs)) = false := by
  have hi := Inv_A_init s0
  have hz : (A_init s0).windowcount = 0 := rfl
  obtain ⟨w1, w2, w3, w4, w5, w6⟩ :=
    run_outputs_window (A_init s0) es hi ho (by rw [hz, hl]; decide)
  have hwz : window (A_init s0) = [] := rfl
  rw [hwz, List.nil_append] at w1
  obtain ⟨b1, b2⟩ := runB_accepts r0 (sentPackets (trace (A_init s0) es)) w2
  have hae : ackEvents s0 r0 es oobs
      = List.zipWith Event.input oobs
          ((sentPackets (trace (A_init s0) es)).map (fun e => ackFor e.seqnum)) := by
    unfold ackEvents
    rw [b2]
  have hr1 : Reachable (run (A_init s0) es) := Reachable_run _ _ (Reachable.init s0)
  obtain ⟨k1, k2, k3, k4, k5⟩ := run_acks_in_order (sentPackets (trace (A_init s0) es))
    (run (A_init s0) es) oobs hr1 w1 (fun e he => (w2 e he).2) (by rw [hb, w3, hl])
  rw [← hae] at k1 k2 k3 k4 k5
  have hne : ∀ e ∈ es ++ ackEvents s0 r0 es oobs, isExpiry e = false := by
    intro e he
    rcases List.mem_append.1 he with he | he
    · exact isExpiry_of_isOutput e (ho e he)
    · exact zipWith_input_no_expiry _ _ e he
  have hsys := SysReachable_run ⟨A_init s0, false⟩ (es ++ ackEvents s0 r0 es oobs)
    (SysReachable.init s0) hne
  have harm := armed_iff_of_SysReachable hsys
  simp only [] at harm
  rw [run_append]
  rw [run_append] at harm
  refine ⟨by rw [w3, hl], ?_, hne, ?_, ?_, ?_, ?_, k1, k2, ?_⟩
  · rw [hae, List.length_zipWith, List.length_map, hb, w3, hl]
    rfl
  · rw [k4, w4]
    exact c1
  · rw [k5, w6]
    exact c2
  · rw [k3, w5, w3, hl]
    show s0.new_ACKs + 6 = 6
    rw [c3]
    rfl
  · rw [b1, c4, w3, hl]
    rfl
  · rw [k2] at harm
    cases hq : timerAfter false (trace (A_init s0) (es ++ ackEvents s0 r0 es oobs))
    · rfl
    · exact absurd (harm.1 hq) (lt_irrefl _)

/-- Witness of C16: the six messages of `sixSends` from zeroed static storage. -/
theorem lossless_run_of_six_witness :
    ackEvents staticInit ⟨0⟩ sixSends (List.replicate 6 zeroPkt)
      = [Event.input zeroPkt (ackFor 0), Event.input zeroPkt (ackFor 1),
         Event.input zeroPkt (ackFor 2), Event.input zeroPkt (ackFor 3),
         Event.input zeroPkt (ackFor 4), Event.input zeroPkt (ackFor 5)] ∧
    (run (A_init staticInit)
      (sixSends ++ ackEvents staticInit ⟨0⟩ sixSends (List.replicate 6 zeroPkt))).new_ACKs = 6 ∧
    (run (A_init staticInit)
      (sixSends ++ ackEvents staticInit ⟨0⟩ sixSends (List.replicate 6 zeroPkt))).windowcount
      = 0 ∧
    timerAfter false (trace (A_init staticInit)
      (sixSends ++ ackEvents staticInit ⟨0⟩ sixSends (List.replicate 6 zeroPkt))) = false :=
  ⟨by decide,
    (lossless_run_of_six staticInit ⟨0⟩ sixSends (List.replicate 6 zeroPkt) (by decide)
      (by decide) (by decide) (by decide) (by decide) (by decide) (by decide)).2.2.2.2.2.1,
    (lossless_run_of_six staticInit ⟨0⟩ sixSends (List.replicate 6 zeroPkt) (by decide)
      (by decide) (by decide) (by decide) (by decide) (by decide) (by decide)).2.2.2.2.2.2.2.2.1,
    (lossless_run_of_six staticInit ⟨0⟩ sixSends (List.replicate 6 zeroPkt) (by decide)
      (by decide) (by decide) (by decide) (by decide) (by decide) (by decide)).2.2.2.2.2.2.2.2.2⟩

/-! ## C17 -/

/-- C17, the code where the claim fails.  After two sends and the ACKs for
both, the timer list still holds the packets 0 and 1.  In the next send the
new window entry, sequence number 2, is unacked and no timer entry has
sequence number 2, yet `addTimer` leaves the timer list as it is:
`TimerIndexPacket` searches `buffer[0..timercount-1]`, where it finds the new
entry itself.  And after `twelveSends` the timer list holds the old packet 0;
in the thirteenth send, of sequence number 0 again, `addTimer` appends a second
entry with sequence number 0, since `buffer[0]` holds sequence number 11. -/
theorem addTimer_searches_buffer :
    Reachable (run (A_init staticInit) (staleTimerEvents.take 4)) ∧
    (run (A_init staticInit) (staleTimerEvents.take 4)).windowcount < WINDOWSIZE ∧
    (run (A_init staticInit) (staleTimerEvents.take 4)).A_nextseqnum = 2 ∧
    window (pushStep (run (A_init staticInit) (staleTimerEvents.take 4)) (letterMsg 2))
      = [mkpkt 2 (letterMsg 2)] ∧
    (mkpkt 2 (letterMsg 2)).acknum = -1 ∧
    timerList (pushStep (run (A_init staticInit) (staleTimerEvents.take 4)) (letterMsg 2))
      = [mkpkt 0 (letterMsg 0), mkpkt 1 (letterMsg 1)] ∧
    (∀ oob : pkt,
      addTimer (pushStep (run (A_init staticInit) (staleTimerEvents.take 4)) (letterMsg 2)) oob 2
        = pushStep (run (A_init staticInit) (staleTimerEvents.take 4)) (letterMsg 2)) ∧
    (∀ oob : pkt,
      timerList (A_output (run (A_init staticInit) (staleTimerEvents.take 4)) oob
          (letterMsg 2)).1
        = [mkpkt 0 (letterMsg 0), mkpkt 1 (letterMsg 1)]) ∧
    Reachable (run (A_init staticInit) twelveSends) ∧
    (run (A_init staticInit) twelveSends).A_nextseqnum = 0 ∧
    window (pushStep (run (A_init staticInit) twelveSends) (letterMsg 12))
      = [mkpkt 11 (letterMsg 11), mkpkt 0 (letterMsg 12)] ∧
    timerList (pushStep (run (A_init staticInit) twelveSends) (letterMsg 12))
      = [mkpkt 0 (letterMsg 0)] ∧
    (∀ oob : pkt,
      timerList (addTimer (pushStep (run (A_init staticInit) twelveSends) (letterMsg 12)) oob 0)
        = [mkpkt 0 (letterMsg 0), mkpkt 0 (letterMsg 12)]) ∧
    (∀ oob : pkt,
      timerList (A_output (run (A_init staticInit) twelveSends) oob (letterMsg 12)).1
        = [mkpkt 0 (letterMsg 0), mkpkt 0 (letterMsg 12)]) :=
  ⟨Reachable_run _ _ (Reachable.init staticInit), by decide, by decide, by decide, by decide,
    by decide, fun _ => rfl, fun _ => rfl,
    Reachable_run _ _ (Reachable.init staticInit), by decide, by decide, by decide,
    fun _ => rfl, fun _ => rfl⟩

/-! ## C18 -/

/-- C18, as stated, fails on the code.  After `wrappedSends` the window holds the
unacked packets 11 and 0 (of the thirteenth message) and the timer list holds
two entries with sequence number 0, the packet of the first message and the
packet of the thirteenth.  As stated, the first of the two is kept and the
later duplicate is dropped; `UpdateTimer` keeps the later one and drops the
first, whatever a read outside `buffer` yields. -/
theorem UpdateTimer_keeps_first_counterexample :
    Reachable (run (A_init staticInit) wrappedSends) ∧
    window (run (A_init staticInit) wrappedSends)
      = [mkpkt 11 (letterMsg 11), mkpkt 0 (letterMsg 12)] ∧
    timerList (run (A_init staticInit) wrappedSends)
      = [mkpkt 0 (letterMsg 0), mkpkt 0 (letterMsg 12)] ∧
    keepFirstUnacked (window (run (A_init staticInit) wrappedSends)) []
        (timerList (run (A_init staticInit) wrappedSends))
      = [mkpkt 0 (letterMsg 0)] ∧
    (∀ oob : pkt,
      timerList (UpdateTimer (run (A_init staticInit) wrappedSends) oob)
        = [mkpkt 0 (letterMsg 12)]) ∧
    (∀ oob : pkt,
      timerList (UpdateTimer (run (A_init staticInit) wrappedSends) oob)
        ≠ keepFirstUnacked (window (run (A_init staticInit) wrappedSends)) []
            (timerList (run (A_init staticInit) wrappedSends))) := by
  have h1 : keepFirstUnacked (window (run (A_init staticInit) wrappedSends)) []
        (timerList (run (A_init staticInit) wrappedSends))
      = [mkpkt 0 (letterMsg 0)] := by decide
  have h2 : ∀ oob : pkt,
      timerList (UpdateTimer (run (A_init staticInit) wrappedSends) oob)
        = [mkpkt 0 (letterMsg 12)] := fun _ => rfl
  refine ⟨Reachable_run _ _ (Reachable.init staticInit), by decide, by decide, h1, h2, ?_⟩
  intro oob
  rw [h1, h2 oob]
  decide

/-- C18, amended: in a reachable state, after `UpdateTimer` the timer list is
the order-preserving sublist of the old timer list in which an entry whose
sequence number belongs to a window entry survives exactly when that window
entry is unacked and no later entry of the old list has the same sequence
number (of several entries for one sequence number the last one can survive);
entries whose window entry is acked are removed, the survivors have pairwise
distinct sequence numbers and `timercount` is the number of survivors.
Nothing is stated on whether an entry whose sequence number is absent from the
window passes the test `keep`. -/
theorem UpdateTimer_reconciles (s : SenderState) (oob : pkt) (h : Reachable s) :
    (∃ keep : pkt → Bool,
      (∀ q e : pkt, e ∈ window s → e.seqnum = q.seqnum → (keep q = true ↔ e.acknum = -1)) ∧
      timerList (UpdateTimer s oob) = keepLast keep (timerList s)) ∧
    List.Sublist (timerList (UpdateTimer s oob)) (timerList s) ∧
    (∀ q e : pkt, q ∈ timerList (UpdateTimer s oob) → e ∈ window s →
      e.seqnum = q.seqnum → e.acknum = -1) ∧
    ((timerList (UpdateTimer s oob)).map pkt.seqnum).Nodup ∧
    (UpdateTimer s oob).timercount = ((timerList (UpdateTimer s oob)).length : Int) ∧
    window (UpdateTimer s oob) = window s := by
  have hi := Inv_of_Reachable h
  have h12 : s.timercount ≤ 12 := by
    have := hi.tc_le
    omega
  have hl : timerList (UpdateTimer s oob)
      = keepLast
          (fun q => decide ((s.buffer.rd oob (BuffIndexPacket s oob q.seqnum)).acknum = -1))
          (timerList s) := by
    rw [timerList_UpdateTimer s oob hi, keptTimers_eq_keepLast s oob h12]
  have hk : ∀ q e : pkt, e ∈ window s → e.seqnum = q.seqnum →
      (decide ((s.buffer.rd oob (BuffIndexPacket s oob q.seqnum)).acknum = -1) = true
        ↔ e.acknum = -1) := by
    intro q e he hs
    rw [decide_eq_true_iff, codeKeep_of_entry s oob hi q e he hs]
  refine ⟨⟨_, hk, hl⟩, ?_, ?_, ?_, ?_, rfl⟩
  · rw [hl]
    exact keepLast_sublist _ _
  · intro q e hq he hs
    rw [hl] at hq
    exact (hk q e he hs).1 (keepLast_mem_keep _ _ q hq)
  · rw [hl]
    exact keepLast_nodup _ _
  · rw [timerList_UpdateTimer s oob hi]
    exact (UpdateTimer_spec s oob).1

/-- Witness of C18 amended: the state after `wrappedSends`, where one of the two
timer entries with sequence number 0 survives. -/
theorem UpdateTimer_reconciles_witness :
    timerList (UpdateTimer (run (A_init staticInit) wrappedSends) zeroPkt)
      = [mkpkt 0 (letterMsg 12)] ∧
    List.Sublist (timerList (UpdateTimer (run (A_init staticInit) wrappedSends) zeroPkt))
      (timerList (run (A_init staticInit) wrappedSends)) ∧
    (UpdateTimer (run (A_init staticInit) wrappedSends) zeroPkt).timercount = 1 :=
  ⟨by decide,
    (UpdateTimer_reconciles (run (A_init staticInit) wrappedSends) zeroPkt
      (Reachable_run _ _ (Reachable.init staticInit))).2.1,
    ((UpdateTimer_reconciles (run (A_init staticInit) wrappedSends) zeroPkt
      (Reachable_run _ _ (Reachable.init staticInit))).2.2.2.2.1).trans (by decide)⟩

/-! ## C19 -/

/-- C19: in every sender state reachable from `A_init`, `0 ≤ timercount ≤
WINDOWSIZE = 6`.  So where `A_output` calls `addTimer` (on the state with the
new packet stored, whose `timercount` is still the old one), the index
`timercount` of the write `timer[timercount]` is inside the 12-element array
and the written cell reads back, `(timercount + 1) % SEQSPACE` is
`timercount + 1` and not 0, and every index `i < timercount` that
`TimerIndexPacket` reads in `buffer` is below 6; after `addTimer` the bound
holds again. -/
theorem timercount_bounded (s : SenderState) (h : Reachable s) :
    0 ≤ s.timercount ∧ s.timercount ≤ WINDOWSIZE ∧ WINDOWSIZE = 6 ∧
    (∀ (oob : pkt) (m : msg), s.windowcount < WINDOWSIZE →
      (A_output s oob m).1.timercount
        = (addTimer (pushStep s m) oob s.A_nextseqnum).timercount ∧
      (pushStep s m).timercount = s.timercount ∧
      (0 ≤ (pushStep s m).timercount ∧ (pushStep s m).timercount < 12) ∧
      (∀ v o : pkt,
        ((pushStep s m).timer.wr (pushStep s m).timercount v).rd o (pushStep s m).timercount
          = v) ∧
      Int.tmod ((pushStep s m).timercount + 1) SEQSPACE = (pushStep s m).timercount + 1 ∧
      Int.tmod ((pushStep s m).timercount + 1) SEQSPACE ≠ 0 ∧
      (∀ i ∈ intRange 0 (pushStep s m).timercount, 0 ≤ i ∧ i < 6) ∧
      0 ≤ (addTimer (pushStep s m) oob s.A_nextseqnum).timercount ∧
      (addTimer (pushStep s m) oob s.A_nextseqnum).timercount ≤ 6) := by
  have hi := Inv_of_Reachable h
  have t0 := hi.tc_nonneg
  have t1 := hi.tc_le
  refine ⟨t0, t1, rfl, ?_⟩
  intro oob m hw
  have hp : (pushStep s m).timercount = s.timercount := rfl
  have hmod : Int.tmod ((pushStep s m).timercount + 1) SEQSPACE
      = (pushStep s m).timercount + 1 := by
    rw [hp, tmod_succ_seq _ t0]
    omega
  obtain ⟨b0, b1⟩ := addTimer_pushStep_timercount s oob m hi hw
  refine ⟨?_, hp, ⟨by rw [hp]; exact t0, by rw [hp]; omega⟩, ?_, hmod, ?_, ?_, b0, b1⟩
  · rw [A_output_open s oob m hi hw]
  · intro v o
    rw [rd_wr, if_pos ⟨rfl, by rw [hp]; exact t0, by rw [hp]; omega⟩]
  · rw [hmod, hp]
    omega
  · intro i hmem
    rw [mem_intRange, hp] at hmem
    omega

/-- Witness of C19: the state after `wrappedSends`, with two timer entries, and
a further send from it. -/
theorem timercount_bounded_witness :
    (run (A_init staticInit) wrappedSends).timercount = 2 ∧
    (run (A_init staticInit) wrappedSends).timercount ≤ WINDOWSIZE ∧
    (addTimer (pushStep (run (A_init staticInit) wrappedSends) (letterMsg 13)) zeroPkt
      (run (A_init staticInit) wrappedSends).A_nextseqnum).timercount ≤ 6 :=
  ⟨by decide,
    (timercount_bounded _ (Reachable_run _ wrappedSends (Reachable.init staticInit))).2.1,
    ((timercount_bounded _ (Reachable_run _ wrappedSends (Reachable.init staticInit))).2.2.2
      zeroPkt (letterMsg 13) (by decide)).2.2.2.2.2.2.2.2⟩

/-! ## C20 -/

/-- C20: the packet `q` that `B_input` transmits in reply to `p` passes the
test of `A_input` (`q` uncorrupted and `q.seqnum = 0`) exactly when `B_input`
accepted `p` (`p` uncorrupted and `p.acknum = -1`); so the reply to a
corrupted or non-data packet, given unmodified to `A_input` in any sender
state, changes nothing in the sender and causes no emulator call. -/
theorem reply_passes_iff_accepted (r : ReceiverState) (p q : pkt)
    (hq : q ∈ sentPackets (B_input r p).2) :
    ((IsCorrupted q = false ∧ q.seqnum = 0) ↔ (IsCorrupted p = false ∧ p.acknum = -1)) ∧
    (¬ (IsCorrupted p = false ∧ p.acknum = -1) →
      ∀ (s : SenderState) (oob : pkt),
        (A_input s oob q).1 = s ∧ (A_input s oob q).2 = [] ∧
        delivered (A_input s oob q).2 = [] ∧ sentPackets (A_input s oob q).2 = []) := by
  by_cases h : IsCorrupted p = false ∧ p.acknum = -1
  · rw [B_input_accept r p h] at hq
    have hq2 : q = replyPkt 0 p.seqnum := by simpa [sentPackets] using hq
    subst hq2
    exact ⟨⟨fun _ => h, fun _ => ⟨replyPkt_uncorrupted _ _, rfl⟩⟩, fun hn => absurd h hn⟩
  · rw [B_input_refuse r p h] at hq
    have hq2 : q = replyPkt 1 p.seqnum := by simpa [sentPackets] using hq
    subst hq2
    have hs : (replyPkt 1 p.seqnum).seqnum ≠ 0 := by
      show (1 : Int) ≠ 0
      decide
    refine ⟨⟨fun hc => absurd hc.2 hs, fun ha => absurd ha h⟩, ?_⟩
    intro _ s oob
    rw [A_input_reject s oob _ (Or.inr hs)]
    exact ⟨rfl, rfl, rfl, rfl⟩

/-- Witness of C20: the reply to the corrupted packet of the first message
has no effect on the sender that waits for the ACK of that packet. -/
theorem reply_passes_iff_accepted_witness :
    replyPkt 1 0 ∈ sentPackets (B_input ⟨0⟩ { mkpkt 0 (letterMsg 0) with checksum := 7 }).2 ∧
    IsCorrupted { mkpkt 0 (letterMsg 0) with checksum := 7 } = true ∧
    (A_input oneSent zeroPkt (replyPkt 1 0)).1 = oneSent ∧
    (A_input oneSent zeroPkt (replyPkt 1 0)).2 = [] :=
  ⟨by decide, by decide,
    ((reply_passes_iff_accepted ⟨0⟩ { mkpkt 0 (letterMsg 0) with checksum := 7 } (replyPkt 1 0)
      (by decide)).2 (by decide) oneSent zeroPkt).1,
    ((reply_passes_iff_accepted ⟨0⟩ { mkpkt 0 (letterMsg 0) with checksum := 7 } (replyPkt 1 0)
      (by decide)).2 (by decide) oneSent zeroPkt).2.1⟩

end SR
